import Mathlib

/-!
Verification of the TalkingHead Blender-script repository.

The repository is a collection of Blender utility scripts.  This file gives a
shallow embedding of the parts of those scripts that the claims concern:

* string replacement as performed by the Python `str.replace` method
  (`removeSub`), used by `rename-mixamo-bones.py`;
* the scene-graph traversal pattern shared by all batch scripts
  (`for r in bpy.context.scene.objects: for o in traverse(r): ...`), where
  `scene.objects` is the flat collection of all objects and `traverse`
  recurses into children, so that child objects are visited several times;
* the shape-key rename loops, the blendshape build loops, the
  `apply_modifiers` routine, the eye-bake script, `copy_pose`, and
  `fix_bone_axes`.

Host-side geometric operations (modifier evaluation, armature deformation,
matrix inversion, quaternion extraction) are kept as abstract function
parameters; the bookkeeping that the scripts themselves perform is modelled
concretely and executably.
-/

/-! ### Python string replacement -/

/-- Predicate that `pat` is a prefix of `s`, on character lists. -/
def startsWith : List Char → List Char → Bool
  | [], _ => true
  | _ :: _, [] => false
  | p :: ps, c :: cs => p == c && startsWith ps cs

/-- Test whether `pat` occurs as a contiguous substring of `s`
(the Python `pat in s` test). -/
def containsSub (pat : List Char) : List Char → Bool
  | [] => startsWith pat []
  | c :: cs => startsWith pat (c :: cs) || containsSub pat cs

/-- Fuelled core of `removeSub`; the fuel is an upper bound on the length of
the remaining string, so the recursion is structural and computable by the
kernel. -/
def removeSubAux (pat : List Char) : Nat → List Char → List Char
  | 0, s => s
  | _ + 1, [] => []
  | fuel + 1, c :: cs =>
    if 1 ≤ pat.length ∧ startsWith pat (c :: cs) = true then
      removeSubAux pat fuel (cs.drop (pat.length - 1))
    else
      c :: removeSubAux pat fuel cs

/-- Python `s.replace(pat, "")`: one left-to-right pass removing each
non-overlapping occurrence of `pat` and continuing after the removed
occurrence. -/
def removeSub (pat s : List Char) : List Char :=
  removeSubAux pat s.length s

/-! ### Scene graph and batch-script traversal

Every batch script in the repository iterates
`for r in bpy.context.scene.objects: for o in traverse(r): ...` where
`bpy.context.scene.objects` is the flat collection of all objects of the
scene (children included) and `traverse` additionally recurses into the
children of each object.  An object therefore receives one visit for itself
plus one visit for each time it occurs as a descendant of another scene
object.  Object data (bone names, shape keys) lives in a store keyed by
object id, since visits mutate it. -/

inductive ObjTree where
  | node (oid : Nat) (armature : Bool) (children : List ObjTree)

mutual

def traverseObj : ObjTree → List (Nat × Bool)
  | .node i hb cs => (i, hb) :: traverseForest cs

def traverseForest : List ObjTree → List (Nat × Bool)
  | [] => []
  | t :: ts => traverseObj t ++ traverseForest ts

end



/-- Read the data of object `i` from the store (`d` when absent). -/
def getStore {α : Type} (st : List (Nat × α)) (i : Nat) (d : α) : α :=
  match st.find? (fun p => p.1 == i) with
  | some p => p.2
  | none => d

/-- Write the data of object `i` in the store. -/
def setStore {α : Type} (st : List (Nat × α)) (i : Nat) (a : α) : List (Nat × α) :=
  st.map (fun p => if p.1 == i then (i, a) else p)

/-- Run the per-object body `f` over a visit sequence; the boolean of a visit
records whether the object passes the script guard (`hasBones` or
`hasShapekeys`). -/
def runVisits {α : Type} (f : α → α) (d : α) :
    List (Nat × Bool) → List (Nat × α) → List (Nat × α)
  | [], st => st
  | (i, hb) :: vs, st =>
      runVisits f d vs (if hb then setStore st i (f (getStore st i d)) else st)

/-- Full batch-script run: visit every object of the flat scene collection and
every object reachable from it through children. -/
def runScript {α : Type} (f : α → α) (d : α) (scene : List ObjTree)
    (st : List (Nat × α)) : List (Nat × α) :=
  runVisits f d (traverseForest scene) st

/-- Number of guarded visits the script pays to object `i`. -/
def visitCount (scene : List ObjTree) (i : Nat) : Nat :=
  ((traverseForest scene).filter (fun p => p.1 == i && p.2)).length

/-! ### The rename-mixamo-bones script (claim C9)

`rename-mixamo-bones.py` renames, at each guarded visit, every bone of the
visited armature by `b.name.replace("mixamorig:", "")`. -/

def mixamoPat : List Char := "mixamorig:".data

/-- Effect of one visit on a single bone name. -/
def renameBone (b : String) : String := String.mk (removeSub mixamoPat b.data)

/-- Effect of one guarded visit on an armature: rename every bone. -/
def renameMixamoPass (bones : List String) : List String := bones.map renameBone

/-- The whole `rename-mixamo-bones.py` run over a scene. -/
def runMixamoScript (scene : List ObjTree) (st : List (Nat × List String)) :
    List (Nat × List String) :=
  runScript renameMixamoPass [] scene st

/-- Scene used to refute claim C9 as stated: the armature (object 1) is a
child of object 0, so the flat scene collection lists it once on its own and
`traverse` reaches it a second time through object 0. -/
def mixamoCexScene : List ObjTree :=
  [.node 0 false [.node 1 true []], .node 1 true []]

/-- Store for the C9 counterexample: the armature has a single bone whose
name regrows an occurrence of `mixamorig:` after one replacement pass. -/
def mixamoCexStore : List (Nat × List String) :=
  [(1, ["mimixamorig:xamorig:"])]

/-! ### The rename-shapekeys scripts (claim C5)

`rename-rocketbox-shapekeys.py`, `rename-avatarsdk-shapekeys.py` and
`rename-tomcat-shapekeys.py` walk the scene and, for each object with shape
keys, run `for m in shapekeyMap: idx = keys.find(m[0]); if idx != -1:
keys[idx].name = m[1]`.  A shape-key block is a name plus its remaining
properties, abstracted as a payload. -/

structure ShapeKeyBlock (β : Type) where
  name : String
  payload : β
deriving DecidableEq

/-- One `shapekeyMap` entry: `keys.find(source)` (first index with that name,
`-1` becoming `none`) followed by the name assignment. -/
def applyRenamePair {β : Type} (keys : List (ShapeKeyBlock β)) (m : String × String) :
    List (ShapeKeyBlock β) :=
  match keys.findIdx? (fun k => k.name == m.1) with
  | none => keys
  | some i =>
    match keys[i]? with
    | some k => keys.set i ⟨m.2, k.payload⟩
    | none => keys

/-- One guarded visit of a rename script: the full `shapekeyMap` loop. -/
def renameKeysPass {β : Type} (map : List (String × String))
    (keys : List (ShapeKeyBlock β)) : List (ShapeKeyBlock β) :=
  map.foldl applyRenamePair keys

/-- Closed form of one rename pass on a list without duplicate names: each
block named like the source of some map entry takes that entry's target
name. -/
def specRename {β : Type} (map : List (String × String)) (k : ShapeKeyBlock β) :
    ShapeKeyBlock β :=
  match map.find? (fun p => p.1 == k.name) with
  | some p => ⟨p.2, k.payload⟩
  | none => k

/-- Shape-key map of `rename-rocketbox-shapekeys.py`. -/
def rocketboxShapekeyMap : List (String × String) := [
  ("AA_VI_00_Sil", "viseme_sil"),
  ("AA_VI_01_PP", "viseme_PP"),
  ("AA_VI_02_FF", "viseme_FF"),
  ("AA_VI_03_TH", "viseme_TH"),
  ("AA_VI_04_DD", "viseme_DD"),
  ("AA_VI_05_KK", "viseme_kk"),
  ("AA_VI_06_CH", "viseme_CH"),
  ("AA_VI_07_SS", "viseme_SS"),
  ("AA_VI_08_nn", "viseme_nn"),
  ("AA_VI_09_RR", "viseme_RR"),
  ("AA_VI_10_aa", "viseme_aa"),
  ("AA_VI_11_E", "viseme_E"),
  ("AA_VI_12_I", "viseme_I"),
  ("AA_VI_13_O", "viseme_O"),
  ("AA_VI_14_U", "viseme_U"),
  ("AK_01_BrowDownLeft", "browDownLeft"),
  ("AK_02_BrowDownRight", "browDownRight"),
  ("AK_03_BrowInnerUp", "browInnerUp"),
  ("AK_04_BrowOuterUpLeft", "browOuterUpLeft"),
  ("AK_05_BrowOuterUpRight", "browOuterUpRight"),
  ("AK_06_CheekPuff", "cheekPuff"),
  ("AK_07_CheekSquintLeft", "cheekSquintLeft"),
  ("AK_08_CheekSquintRight", "cheekSquintRight"),
  ("AK_09_EyeBlinkLeft", "eyeBlinkLeft"),
  ("AK_10_EyeBlinkRight", "eyeBlinkRight"),
  ("AK_11_EyeLookDownLeft", "eyeLookDownLeft"),
  ("AK_12_EyeLookDownRight", "eyeLookDownRight"),
  ("AK_13_EyeLookInLeft", "eyeLookInLeft"),
  ("AK_14_EyeLookInRight", "eyeLookInRight"),
  ("AK_15_EyeLookOutLeft", "eyeLookOutLeft"),
  ("AK_16_EyeLookOutRight", "eyeLookOutRight"),
  ("AK_17_EyeLookUpLeft", "eyeLookUpLeft"),
  ("AK_18_EyeLookUpRight", "eyeLookUpRight"),
  ("AK_19_EyeSquintLeft", "eyeSquintLeft"),
  ("AK_20_EyeSquintRight", "eyeSquintRight"),
  ("AK_21_EyeWideLeft", "eyeWideLeft"),
  ("AK_22_EyeWideRight", "eyeWideRight"),
  ("AK_23_JawForward", "jawForward"),
  ("AK_24_JawLeft", "jawLeft"),
  ("AK_25_JawOpen", "jawOpen"),
  ("AK_26_JawRight", "jawRight"),
  ("AK_27_MouthClose", "mouthClose"),
  ("AK_28_MouthDimpleLeft", "mouthDimpleLeft"),
  ("AK_29_MouthDimpleRight", "mouthDimpleRight"),
  ("AK_30_MouthFrownLeft", "mouthFrownLeft"),
  ("AK_31_MouthFrownRight", "mouthFrownRight"),
  ("AK_32_MouthFunnel", "mouthFunnel"),
  ("AK_33_MouthLeft", "mouthLeft"),
  ("AK_34_MouthLowerDownLeft", "mouthLowerDownLeft"),
  ("AK_35_MouthLowerDownRight", "mouthLowerDownRight"),
  ("AK_36_MouthPressLeft", "mouthPressLeft"),
  ("AK_37_MouthPressRight", "mouthPressRight"),
  ("AK_38_MouthPucker", "mouthPucker"),
  ("AK_39_MouthRight", "mouthRight"),
  ("AK_40_MouthRollLower", "mouthRollLower"),
  ("AK_41_MouthRollUpper", "mouthRollUpper"),
  ("AK_42_MouthShrugLower", "mouthShrugLower"),
  ("AK_43_MouthShrugUpper", "mouthShrugUpper"),
  ("AK_44_MouthSmileLeft", "mouthSmileLeft"),
  ("AK_45_MouthSmileRight", "mouthSmileRight"),
  ("AK_46_MouthStretchLeft", "mouthStretchLeft"),
  ("AK_47_MouthStretchRight", "mouthStretchRight"),
  ("AK_48_MouthUpperUpLeft", "mouthUpperUpLeft"),
  ("AK_49_MouthUpperUpRight", "mouthUpperUpRight"),
  ("AK_50_NoseSneerLeft", "noseSneerLeft"),
  ("AK_51_NoseSneerRight", "noseSneerRight"),
  ("AK_52_TongueOut", "tongueOut")
]

/-- Shape-key map of `rename-avatarsdk-shapekeys.py`. -/
def avatarsdkShapekeyMap : List (String × String) := [
  ("sil", "viseme_sil"),
  ("PP", "viseme_PP"),
  ("FF", "viseme_FF"),
  ("TH", "viseme_TH"),
  ("DD", "viseme_DD"),
  ("kk", "viseme_kk"),
  ("CH", "viseme_CH"),
  ("SS", "viseme_SS"),
  ("nn", "viseme_nn"),
  ("RR", "viseme_RR"),
  ("aa", "viseme_aa"),
  ("E", "viseme_E"),
  ("ih", "viseme_I"),
  ("oh", "viseme_O"),
  ("ou", "viseme_U")
]

/-- Shape-key map of `rename-tomcat-shapekeys.py`. -/
def tomcatShapekeyMap : List (String × String) := [
  ("vrc.v_sil", "viseme_sil"),
  ("vrc.v_pp", "viseme_PP"),
  ("vrc.v_ff", "viseme_FF"),
  ("vrc.v_th", "viseme_TH"),
  ("vrc.v_dd", "viseme_DD"),
  ("vrc.v_kk", "viseme_kk"),
  ("vrc.v_ch", "viseme_CH"),
  ("vrc.v_ss", "viseme_SS"),
  ("vrc.v_nn", "viseme_nn"),
  ("vrc.v_rr", "viseme_RR"),
  ("vrc.v_aa", "viseme_aa"),
  ("vrc.v_ee", "viseme_E"),
  ("vrc.v_ih", "viseme_I"),
  ("vrc.v_oh", "viseme_O"),
  ("vrc.v_ou", "viseme_U")
]

/-- Keys list used to instantiate `C5_rename_shapekeys`. -/
def c5WitnessKeys : List (ShapeKeyBlock Nat) :=
  [⟨"AA_VI_00_Sil", 7⟩, ⟨"Basis", 0⟩]

/-! ### The blendshape build scripts (claims C4, C10)

`build-visemes-from-arkit.py` (override disabled),
`build-extras-from-arkit.py` (override enabled) and
`build-visemes-from-faceit-phonemes.py` (override disabled) walk the scene
and, per object with shape keys and per table entry, possibly remove an
existing key of the entry name (override), then, when the name is absent and
at least one listed component exists, reset every slider to zero, set each
existing component slider to its listed weight, add a key from the resulting
mix (Blender evaluates the mix as the basis shape plus the value-weighted
sum of the key offsets from basis), and reset every slider to zero again.
Geometry lives in an arbitrary rational vector space. -/

structure BKey (V : Type) where
  name : String
  value : ℚ
  geo : V
deriving DecidableEq

structure MixEntry where
  name : String
  value : ℚ
deriving DecidableEq

structure BuildEntry where
  name : String
  mix : List MixEntry
deriving DecidableEq

/-- Blender `key_blocks.get(name)`: first key block with the given name. -/
def findKey {V : Type} (keys : List (BKey V)) (nm : String) : Option (BKey V) :=
  keys.find? (fun k => k.name == nm)

/-- `o.shape_key_remove(keys.get(name))` guarded by existence. -/
def removeKeyByName {V : Type} (keys : List (BKey V)) (nm : String) : List (BKey V) :=
  match keys.findIdx? (fun k => k.name == nm) with
  | some i => keys.eraseIdx i
  | none => keys

/-- `keys.get(name).value = v` (first key block with the name). -/
def setKeyValue {V : Type} (keys : List (BKey V)) (nm : String) (v : ℚ) :
    List (BKey V) :=
  match keys.findIdx? (fun k => k.name == nm) with
  | some i =>
    match keys[i]? with
    | some k => keys.set i ⟨k.name, v, k.geo⟩
    | none => keys
  | none => keys

/-- `for k in keys: k.value = 0`. -/
def zeroValues {V : Type} (keys : List (BKey V)) : List (BKey V) :=
  keys.map (fun k => ⟨k.name, 0, k.geo⟩)

/-- `for m in mix: if not keys.get(m["name"]) is None: keys.get(m["name"]).value = m["value"]`. -/
def setMixValues {V : Type} (keys : List (BKey V)) (mix : List MixEntry) :
    List (BKey V) :=
  mix.foldl
    (fun ks m => if (ks.find? (fun k => k.name == m.name)).isSome then
        setKeyValue ks m.name m.value
      else ks)
    keys

/-- Evaluated shape mix baked by `shape_key_add(from_mix=True)`: the basis
shape (first key block) plus the slider-weighted offsets of every key from
basis. -/
def mixFromKeys {V : Type} [AddCommGroup V] [Module ℚ V] (keys : List (BKey V)) : V :=
  match keys with
  | [] => 0
  | b :: _ => keys.foldl (fun acc k => acc + k.value • (k.geo - b.geo)) b.geo

/-- The override step at the head of each table-entry iteration. -/
def overrideStep {V : Type} (override : Bool) (keys : List (BKey V))
    (e : BuildEntry) : List (BKey V) :=
  if override then removeKeyByName keys e.name else keys

/-- Processing of one table entry by the shapekeys loop. -/
def processEntry {V : Type} [AddCommGroup V] [Module ℚ V] (override : Bool)
    (keys : List (BKey V)) (e : BuildEntry) : List (BKey V) :=
  let keys1 := overrideStep override keys e
  if (keys1.find? (fun k => k.name == e.name)).isSome then keys1
  else if e.mix.any (fun m => (keys1.find? (fun k => k.name == m.name)).isSome) then
    let keys3 := setMixValues (zeroValues keys1) e.mix
    zeroValues (keys3 ++ [⟨e.name, 0, mixFromKeys keys3⟩])
  else keys1

/-- One guarded visit of a build script: the whole shapekeys loop. -/
def buildVisit {V : Type} [AddCommGroup V] [Module ℚ V] (override : Bool)
    (table : List BuildEntry) (keys : List (BKey V)) : List (BKey V) :=
  table.foldl (processEntry override) keys

/-- Whether the iteration for entry `e` creates a new shape key. -/
def entryCreates {V : Type} (override : Bool) (keys : List (BKey V))
    (e : BuildEntry) : Bool :=
  let keys1 := overrideStep override keys e
  !(keys1.find? (fun k => k.name == e.name)).isSome &&
    e.mix.any (fun m => (keys1.find? (fun k => k.name == m.name)).isSome)

/-- Whether a whole visit creates at least one new shape key. -/
def buildCreates {V : Type} [AddCommGroup V] [Module ℚ V] (override : Bool) :
    List BuildEntry → List (BKey V) → Bool
  | [], _ => false
  | e :: es, keys =>
    entryCreates override keys e || buildCreates override es (processEntry override keys e)

/-- Weight a mix table assigns to a shape-key name (zero when unlisted). -/
def mixWeight (mix : List MixEntry) (nm : String) : ℚ :=
  ((mix.find? (fun m => m.name == nm)).map (fun m => m.value)).getD 0

/-- Blendshape table of `build-visemes-from-arkit.py`. -/
def visemesArkitShapekeys : List BuildEntry := [
  ⟨"viseme_aa", [⟨"jawOpen", (0.6 : ℚ)⟩]⟩,
  ⟨"viseme_E", [⟨"mouthPressLeft", (0.8 : ℚ)⟩, ⟨"mouthPressRight", (0.8 : ℚ)⟩, ⟨"mouthDimpleLeft", (1.0 : ℚ)⟩, ⟨"mouthDimpleRight", (1.0 : ℚ)⟩, ⟨"jawOpen", (0.3 : ℚ)⟩]⟩,
  ⟨"viseme_I", [⟨"mouthPressLeft", (0.6 : ℚ)⟩, ⟨"mouthPressRight", (0.6 : ℚ)⟩, ⟨"mouthDimpleLeft", (0.6 : ℚ)⟩, ⟨"mouthDimpleRight", (0.6 : ℚ)⟩, ⟨"jawOpen", (0.2 : ℚ)⟩]⟩,
  ⟨"viseme_O", [⟨"mouthPucker", (1.0 : ℚ)⟩, ⟨"jawForward", (0.6 : ℚ)⟩, ⟨"jawOpen", (0.2 : ℚ)⟩]⟩,
  ⟨"viseme_U", [⟨"mouthFunnel", (1.0 : ℚ)⟩]⟩,
  ⟨"viseme_PP", [⟨"mouthRollLower", (0.8 : ℚ)⟩, ⟨"mouthRollUpper", (0.8 : ℚ)⟩, ⟨"mouthUpperUpLeft", (0.3 : ℚ)⟩, ⟨"mouthUpperUpRight", (0.3 : ℚ)⟩]⟩,
  ⟨"viseme_FF", [⟨"mouthPucker", (1.0 : ℚ)⟩, ⟨"mouthShrugUpper", (1.0 : ℚ)⟩, ⟨"mouthLowerDownLeft", (0.2 : ℚ)⟩, ⟨"mouthLowerDownRight", (0.2 : ℚ)⟩, ⟨"mouthDimpleLeft", (1.0 : ℚ)⟩, ⟨"mouthDimpleRight", (1.0 : ℚ)⟩, ⟨"mouthRollLower", (1.0 : ℚ)⟩]⟩,
  ⟨"viseme_DD", [⟨"mouthPressLeft", (0.8 : ℚ)⟩, ⟨"mouthPressRight", (0.8 : ℚ)⟩, ⟨"mouthFunnel", (0.5 : ℚ)⟩, ⟨"jawOpen", (0.2 : ℚ)⟩]⟩,
  ⟨"viseme_SS", [⟨"mouthPressLeft", (0.8 : ℚ)⟩, ⟨"mouthPressRight", (0.8 : ℚ)⟩, ⟨"mouthLowerDownLeft", (0.5 : ℚ)⟩, ⟨"mouthLowerDownRight", (0.5 : ℚ)⟩, ⟨"jawOpen", (0.1 : ℚ)⟩]⟩,
  ⟨"viseme_TH", [⟨"mouthRollUpper", (0.6 : ℚ)⟩, ⟨"jawOpen", (0.2 : ℚ)⟩, ⟨"tongueOut", (0.4 : ℚ)⟩]⟩,
  ⟨"viseme_CH", [⟨"mouthPucker", (0.5 : ℚ)⟩, ⟨"jawOpen", (0.2 : ℚ)⟩]⟩,
  ⟨"viseme_RR", [⟨"mouthPucker", (0.5 : ℚ)⟩, ⟨"jawOpen", (0.2 : ℚ)⟩]⟩,
  ⟨"viseme_kk", [⟨"mouthLowerDownLeft", (0.4 : ℚ)⟩, ⟨"mouthLowerDownRight", (0.4 : ℚ)⟩, ⟨"mouthDimpleLeft", (0.3 : ℚ)⟩, ⟨"mouthDimpleRight", (0.3 : ℚ)⟩, ⟨"mouthFunnel", (0.3 : ℚ)⟩, ⟨"mouthPucker", (0.3 : ℚ)⟩, ⟨"jawOpen", (0.15 : ℚ)⟩]⟩,
  ⟨"viseme_nn", [⟨"mouthLowerDownLeft", (0.4 : ℚ)⟩, ⟨"mouthLowerDownRight", (0.4 : ℚ)⟩, ⟨"mouthDimpleLeft", (0.3 : ℚ)⟩, ⟨"mouthDimpleRight", (0.3 : ℚ)⟩, ⟨"mouthFunnel", (0.3 : ℚ)⟩, ⟨"mouthPucker", (0.3 : ℚ)⟩, ⟨"jawOpen", (0.15 : ℚ)⟩, ⟨"tongueOut", (0.2 : ℚ)⟩]⟩,
  ⟨"viseme_sil", []⟩
]

/-- Blendshape table of `build-extras-from-arkit.py`. -/
def extrasArkitShapekeys : List BuildEntry := [
  ⟨"mouthOpen", [⟨"jawOpen", (0.7 : ℚ)⟩]⟩,
  ⟨"mouthSmile", [⟨"mouthSmileLeft", (1.0 : ℚ)⟩, ⟨"mouthSmileRight", (1.0 : ℚ)⟩]⟩,
  ⟨"eyesClosed", [⟨"eyeBlinkLeft", (1.0 : ℚ)⟩, ⟨"eyeBlinkRight", (1.0 : ℚ)⟩]⟩,
  ⟨"eyesLookUp", [⟨"eyeLookUpLeft", (1.0 : ℚ)⟩, ⟨"eyeLookUpRight", (1.0 : ℚ)⟩]⟩,
  ⟨"eyesLookDown", [⟨"eyeLookDownLeft", (1.0 : ℚ)⟩, ⟨"eyeLookDownRight", (1.0 : ℚ)⟩]⟩
]

/-- Blendshape table of `build-visemes-from-faceit-phonemes.py`. -/
def faceitShapekeys : List BuildEntry := [
  ⟨"viseme_aa", [⟨"aa_02", (1.0 : ℚ)⟩]⟩,
  ⟨"viseme_E", [⟨"ey_eh_uh_04", (1.0 : ℚ)⟩]⟩,
  ⟨"viseme_I", [⟨"y_iy_ih_ix_06", (1.0 : ℚ)⟩]⟩,
  ⟨"viseme_O", [⟨"ow_08", (1.0 : ℚ)⟩]⟩,
  ⟨"viseme_U", [⟨"w_uw_07", (1.0 : ℚ)⟩]⟩,
  ⟨"viseme_PP", [⟨"p_b_m_21", (1.0 : ℚ)⟩]⟩,
  ⟨"viseme_FF", [⟨"f_v_18", (1.0 : ℚ)⟩]⟩,
  ⟨"viseme_DD", [⟨"d_t_n_19", (1.0 : ℚ)⟩]⟩,
  ⟨"viseme_SS", [⟨"s_z_15", (1.0 : ℚ)⟩]⟩,
  ⟨"viseme_TH", [⟨"th_dh_17", (1.0 : ℚ)⟩]⟩,
  ⟨"viseme_CH", [⟨"sh_ch_jh_zh_16", (1.0 : ℚ)⟩]⟩,
  ⟨"viseme_RR", [⟨"r_13", (1.0 : ℚ)⟩]⟩,
  ⟨"viseme_kk", [⟨"k_g_ng_20", (1.0 : ℚ)⟩]⟩,
  ⟨"viseme_nn", [⟨"d_t_n_19", (1.0 : ℚ)⟩]⟩,
  ⟨"viseme_sil", []⟩
]

/-- Keys list used to refute claim C4 as stated: only a basis key. -/
def c4CexKeys : List (BKey ℚ) := [⟨"Basis", 0, 0⟩]

/-- Keys list used to instantiate the amended claim C4. -/
def c4WitnessKeys : List (BKey ℚ) := [⟨"Basis", 0, 0⟩, ⟨"jawOpen", 0, 1⟩]

/-- First entry of the `build-visemes-from-arkit.py` table. -/
def c4WitnessEntry : BuildEntry := ⟨"viseme_aa", [⟨"jawOpen", (0.6 : ℚ)⟩]⟩

/-- Keys list used to instantiate claim C10 (a non-zero slider that the
creating run discards). -/
def c10WitnessKeys : List (BKey ℚ) := [⟨"Basis", 0, 0⟩, ⟨"jawOpen", 1/2, 1⟩]

/-! ### The apply_modifiers routine (claims C1, C2, C3)

`apply_modifiers` in `MPFB/talkinghead-addon.py` applies a list of selected
modifiers to a mesh object while preserving its shape keys: it saves the
shape-key properties, duplicates the object (the copy keeps all keys),
removes the keys of the original and applies the modifiers to it, then for
every non-basis key duplicates the copy, transfers that one key onto the
duplicate, applies the modifiers, verifies the vertex count, joins the
result back as a new shape key and deletes the duplicate, and finally
restores the saved properties and deletes the copy.  Geometry and the
effect of a modifier on it stay abstract (`applyMod`, `nVerts`); object
identities are `0` for the original, `1` for the copy and `i + 1` for the
duplicate handling key `i`. -/

structure Modifier where
  name : String
  mtype : String
  show_viewport : Bool
  use_mirror_merge : Bool
deriving DecidableEq

structure KeyBlock (G : Type) where
  name : String
  mute : Bool
  interpolation : String
  relative_key : Nat
  slider_max : ℚ
  slider_min : ℚ
  value : ℚ
  vertex_group : String
  geo : G
deriving DecidableEq

structure MeshObj (G : Type) where
  keys : List (KeyBlock G)
  geo : G
  modifiers : List Modifier
deriving DecidableEq

structure SavedProps where
  name : String
  mute : Bool
  interpolation : String
  relative_key : String
  slider_max : ℚ
  slider_min : ℚ
  value : ℚ
  vertex_group : String
deriving DecidableEq

inductive Event where
  | duplicate (newId : Nat)
  | transferKey (i : Nat) (toId : Nat)
  | applyModifier (objId : Nat) (modName : String)
  | joinShapes (fromId toId : Nat)
  | deleteObject (objId : Nat)
  | removeMesh (objId : Nat)
deriving DecidableEq

/-- The properties dictionary saved for one key block (`relative_key` saved
by name). -/
def savedProps {G : Type} (keys : List (KeyBlock G)) (k : KeyBlock G) : SavedProps :=
  ⟨k.name, k.mute, k.interpolation,
    ((keys[k.relative_key]?).map (fun kb => kb.name)).getD "",
    k.slider_max, k.slider_min, k.value, k.vertex_group⟩

/-- A fresh key block as produced by `shape_key_add` or `join_shapes`
(default properties, relative to the basis key). -/
def freshKey {G : Type} (nm : String) (g : G) : KeyBlock G :=
  ⟨nm, false, "KEY_LINEAR", 0, 1, 0, 0, "", g⟩

/-- The error message built when the vertex counts disagree. -/
def errorInfoText (contains_mirror_with_merge : Bool) : String :=
  let errorInfoHint := if contains_mirror_with_merge then
      "There is mirror modifier with \x27Merge\x27 property enabled. This may cause a problem."
    else ""
  let suffix := if errorInfoHint ≠ "" then "\n\nHint: " ++ errorInfoHint else ""
  "Shape keys ended up with different number of vertices!\n" ++
    "All shape keys needs to have the same number of vertices after modifier is applied.\n" ++
    "Otherwise joining such shape keys will fail!" ++ suffix

/-- Events emitted while handling one non-basis shape key on the success
path: duplicate of the copy, transfer of key `i`, one modifier application
per selected modifier, join back onto the original, deletion of the
duplicate object and of its mesh. -/
def perKeyEvents (selected : List String) (i : Nat) : List Event :=
  [Event.duplicate (i + 1), Event.transferKey i (i + 1)] ++
    selected.map (Event.applyModifier (i + 1)) ++
    [Event.joinShapes (i + 1) 0, Event.deleteObject (i + 1), Event.removeMesh (i + 1)]

section ApplyModifiersModel

variable {G : Type} (applyMod : String → G → G) (nVerts : G → Nat)

/-- `for modifierName in selectedModifiers: bpy.ops.object.modifier_apply(...)`. -/
def applyModList (selected : List String) (g : G) : G :=
  selected.foldl (fun g m => applyMod m g) g

/-- Geometry of the duplicate that carries shape key `i` after the selected
modifiers are applied: the transfer dance leaves the duplicate mesh at the
geometry of key `i` of the copy. -/
def tmpKeyGeo (selected : List String) (copyKeys : List (KeyBlock G)) (g0 : G)
    (i : Nat) : G :=
  applyModList applyMod selected (((copyKeys[i]?).map (fun k => k.geo)).getD g0)

/-- The per-key loop of `apply_modifiers` (indices 1 to shapesCount-1). -/
def applyLoop (selected : List String) (copyKeys : List (KeyBlock G)) (g0 : G)
    (vertCount : Nat) (errorInfo : String) :
    List Nat → MeshObj G → List Event → (Bool × Option String) × MeshObj G × List Event
  | [], orig, tr => ((true, none), orig, tr)
  | i :: rest, orig, tr =>
    if nVerts (tmpKeyGeo applyMod selected copyKeys g0 i) ≠ vertCount then
      ((false, some errorInfo), orig,
        tr ++ [Event.duplicate (i + 1), Event.transferKey i (i + 1)] ++
          selected.map (Event.applyModifier (i + 1)))
    else
      applyLoop selected copyKeys g0 vertCount errorInfo rest
        ⟨orig.keys ++ [freshKey "" (tmpKeyGeo applyMod selected copyKeys g0 i)],
          orig.geo, orig.modifiers⟩
        (tr ++ perKeyEvents selected i)

end ApplyModifiersModel

/-- First restoration loop: names (restored before `relative_key`). -/
def restoreNames {G : Type} (props : List SavedProps) (ks : List (KeyBlock G)) :
    List (KeyBlock G) :=
  List.zipWith (fun k p => {k with name := p.name}) ks props

/-- Second restoration loop: the remaining properties, `relative_key`
re-resolved by scanning the (renamed) key blocks for the saved name and
keeping the old reference when no block matches. -/
def restoreProps {G : Type} (props : List SavedProps) (ks : List (KeyBlock G)) :
    List (KeyBlock G) :=
  let named := restoreNames props ks
  List.zipWith (fun k p =>
    ⟨k.name, p.mute, p.interpolation,
      match named.findIdx? (fun kb => kb.name == p.relative_key) with
      | some j => j
      | none => k.relative_key,
      p.slider_max, p.slider_min, p.value, p.vertex_group, k.geo⟩) named props

/-- Basis geometry the mesh reverts to when all shape keys are removed. -/
def basisGeoOf {G : Type} (obj : MeshObj G) : G :=
  match obj.keys with
  | [] => obj.geo
  | b :: _ => b.geo

section ApplyModifiersMain

variable {G : Type} (applyMod : String → G → G) (nVerts : G → Nat)

/-- `contains_mirror_with_merge`: inspection of the modifiers for the hint
used in the error message. -/
def amMirror (obj : MeshObj G) (selectedModifiers : List String) : Bool :=
  obj.modifiers.any (fun m =>
    selectedModifiers.contains m.name && m.mtype == "MIRROR" && m.use_mirror_merge)

/-- Names of the armature modifiers disabled at the start of the routine. -/
def amDisabledNames (obj : MeshObj G) (selectedModifiers : List String)
    (disable_armatures : Bool) : List String :=
  if disable_armatures then
    (obj.modifiers.filter (fun m => !selectedModifiers.contains m.name &&
      m.mtype == "ARMATURE" && m.show_viewport)).map (fun m => m.name)
  else []

/-- The modifier stack after the armature modifiers are disabled. -/
def amModifiers1 (obj : MeshObj G) (selectedModifiers : List String)
    (disable_armatures : Bool) : List Modifier :=
  obj.modifiers.map (fun m =>
    if (amDisabledNames obj selectedModifiers disable_armatures).contains m.name then
      ⟨m.name, m.mtype, false, m.use_mirror_merge⟩
    else m)

/-- Vertex count of the base mesh after the selected modifiers are applied. -/
def amVertCount (obj : MeshObj G) (selectedModifiers : List String) : Nat :=
  nVerts (applyModList applyMod selectedModifiers (basisGeoOf obj))

/-- The original object after its keys are removed, the selected modifiers
applied, and a fresh basis key added. -/
def amOrig1 (obj : MeshObj G) (selectedModifiers : List String)
    (disable_armatures : Bool) : MeshObj G :=
  ⟨[freshKey "Basis" (applyModList applyMod selectedModifiers (basisGeoOf obj))],
    applyModList applyMod selectedModifiers (basisGeoOf obj),
    (amModifiers1 obj selectedModifiers disable_armatures).filter
      (fun m => !selectedModifiers.contains m.name)⟩

/-- The per-key loop of `apply_modifiers`, run on indices 1 to
shapesCount-1 starting from the processed original. -/
def amLoop (obj : MeshObj G) (selectedModifiers : List String)
    (disable_armatures : Bool) :
    (Bool × Option String) × MeshObj G × List Event :=
  applyLoop applyMod nVerts selectedModifiers obj.keys (basisGeoOf obj)
    (amVertCount applyMod nVerts obj selectedModifiers)
    (errorInfoText (amMirror obj selectedModifiers))
    (List.range' 1 (obj.keys.length - 1))
    (amOrig1 applyMod obj selectedModifiers disable_armatures)
    ([Event.duplicate 1] ++ selectedModifiers.map (Event.applyModifier 0))

/-- The whole `apply_modifiers(context, selectedModifiers, disable_armatures)`
routine, returning its `(Bool, errorInfo)` result, the final state of the
original object, and the trace of host operations. -/
def apply_modifiers (obj : MeshObj G) (selectedModifiers : List String)
    (disable_armatures : Bool) :
    (Bool × Option String) × MeshObj G × List Event :=
  if obj.keys.length = 0 then
    ((true, none),
      ⟨[], applyModList applyMod selectedModifiers obj.geo,
        (amModifiers1 obj selectedModifiers disable_armatures).filter
          (fun m => !selectedModifiers.contains m.name)⟩,
      selectedModifiers.map (Event.applyModifier 0))
  else
    let r := amLoop applyMod nVerts obj selectedModifiers disable_armatures
    if r.1.1 = false then r
    else
      ((true, none),
        ⟨restoreProps (obj.keys.map (savedProps obj.keys)) r.2.1.keys, r.2.1.geo,
          if disable_armatures then
            r.2.1.modifiers.map (fun m =>
              if (amDisabledNames obj selectedModifiers disable_armatures).contains m.name
              then ⟨m.name, m.mtype, true, m.use_mirror_merge⟩ else m)
          else r.2.1.modifiers⟩,
        r.2.2 ++ [Event.deleteObject 1, Event.removeMesh 1])

end ApplyModifiersMain

/-- Concrete mesh object (trivial geometry) used to instantiate claims about
`apply_modifiers`. -/
def c1Obj : MeshObj Unit :=
  ⟨[⟨"Basis", false, "KEY_LINEAR", 0, 1, 0, 0, "", ()⟩,
    ⟨"Smile", false, "KEY_LINEAR", 0, 1, 0, 1, "", ()⟩],
    (), [⟨"Delete", "MASK", true, false⟩]⟩

/-! ### The build-avatarsdk-eyes script (claim C6)

`build-avatarsdk-eyes.py` bakes, for each eye, four look blendshapes by
resetting every pose bone, rotating only the configured eye bone about the
X axis (Up/Down) or Y axis (In/Out), and applying the visible Armature
modifier as a shape key renamed to `eyeLook<Direction><Side>`; it raises a
RuntimeError when the mesh has no visible Armature modifier.  Rotation
angles are kept in degrees (`math.radians` is an injective change of unit
elided by the embedding); the armature deformation of a mesh is an abstract
function of the pose. -/

structure PoseBone where
  name : String
  location : ℚ × ℚ × ℚ
  rotation_mode : String
  rotation_euler : ℚ × ℚ × ℚ
  scale : ℚ × ℚ × ℚ
deriving DecidableEq

structure ArmatureObj where
  pose : List PoseBone
deriving DecidableEq

structure EyeMod where
  name : String
  mtype : String
  show_viewport : Bool
deriving DecidableEq

structure EyeMesh (V : Type) where
  meshName : String
  baseGeo : V
  keys : List (String × V)
  modifiers : List EyeMod
deriving DecidableEq

/-- One eye configuration of the script. -/
structure EyeConfig where
  bone : String
  side : String
  rotations : List (String × ℚ)
deriving DecidableEq

/-- The `LEFT` configuration (mesh AvatarLeftEyeball, bone LeftEye). -/
def LEFT : EyeConfig := ⟨"LeftEye", "Left",
  [("Up", -20), ("Down", 30), ("In", -25), ("Out", 25)]⟩

/-- The `RIGHT` configuration (mesh AvatarRightEyeball, bone RightEye; the
In/Out angles are flipped). -/
def RIGHT : EyeConfig := ⟨"RightEye", "Right",
  [("Up", -20), ("Down", 30), ("In", 25), ("Out", -25)]⟩

/-- `reset_pose`: zero location and rotation, unit scale, for every bone. -/
def reset_pose (arm : ArmatureObj) : ArmatureObj :=
  ⟨arm.pose.map (fun b => ⟨b.name, (0, 0, 0), "XYZ", (0, 0, 0), (1, 1, 1)⟩)⟩

/-- `set_bone_rotation`: zero the euler rotation of the named bone and set
its component on the given axis (angle in degrees). -/
def set_bone_rotation (arm : ArmatureObj) (bone : String) (axis : String)
    (degrees : ℚ) : ArmatureObj :=
  ⟨arm.pose.map (fun b =>
    if b.name == bone then
      ⟨b.name, b.location, "XYZ",
        (if axis == "X" then (degrees, 0, 0)
         else if axis == "Y" then (0, degrees, 0)
         else if axis == "Z" then (0, 0, degrees)
         else (0, 0, 0)), b.scale⟩
    else b)⟩

/-- `ensure_basis`: add a Basis key when the mesh has no shape keys or no
key named Basis. -/
def ensure_basis {V : Type} (mesh : EyeMesh V) : EyeMesh V :=
  if mesh.keys.isEmpty then
    ⟨mesh.meshName, mesh.baseGeo, [("Basis", mesh.baseGeo)], mesh.modifiers⟩
  else if (mesh.keys.find? (fun p => p.1 == "Basis")).isSome then mesh
  else ⟨mesh.meshName, mesh.baseGeo, mesh.keys ++ [("Basis", mesh.baseGeo)],
    mesh.modifiers⟩

/-- `remove_shape_key`: remove the first key block of the given name. -/
def remove_shape_key {V : Type} (mesh : EyeMesh V) (nm : String) : EyeMesh V :=
  if mesh.keys.isEmpty then mesh
  else match mesh.keys.findIdx? (fun p => p.1 == nm) with
    | some i => ⟨mesh.meshName, mesh.baseGeo, mesh.keys.eraseIdx i, mesh.modifiers⟩
    | none => mesh

/-- Whether the mesh carries a visible Armature modifier. -/
def hasVisArm {V : Type} (mesh : EyeMesh V) : Bool :=
  (mesh.modifiers.find? (fun m => m.mtype == "ARMATURE" && m.show_viewport)).isSome

/-- `save_armature_as_shape_key`: apply the first visible Armature modifier
as a shape key (appending the armature deformation of the current pose) and
rename the new key block; RuntimeError when no such modifier exists. -/
def save_armature_as_shape_key {V : Type} (deform : List PoseBone → V)
    (arm : ArmatureObj) (mesh : EyeMesh V) (shape_name : String) :
    Except String (EyeMesh V) :=
  if hasVisArm mesh then
    .ok ⟨mesh.meshName, mesh.baseGeo, mesh.keys ++ [(shape_name, deform arm.pose)],
      mesh.modifiers⟩
  else
    .error ("No active Armature modifier on " ++ mesh.meshName)

/-- Axis chosen for a direction (`UP_DOWN_AXIS = "X"`, `IN_OUT_AXIS = "Y"`). -/
def axisFor (direction : String) : String :=
  if direction == "Up" || direction == "Down" then "X" else "Y"

/-- The per-direction loop of `bake_eye` (override enabled, as in the
script: an existing key of the target name is removed first). -/
def bakeEyeLoop {V : Type} (deform : List PoseBone → V) (cfg : EyeConfig) :
    List (String × ℚ) → ArmatureObj → EyeMesh V →
    Except String (ArmatureObj × EyeMesh V)
  | [], arm, mesh => .ok (arm, mesh)
  | (dir, angle) :: rest, arm, mesh =>
    let mesh1 := remove_shape_key mesh ("eyeLook" ++ dir ++ cfg.side)
    let arm1 := set_bone_rotation (reset_pose arm) cfg.bone (axisFor dir) angle
    match save_armature_as_shape_key deform arm1 mesh1
        ("eyeLook" ++ dir ++ cfg.side) with
    | .error e => .error e
    | .ok mesh2 => bakeEyeLoop deform cfg rest arm1 mesh2

/-- `bake_eye(config)`: ensure a basis key, bake the four directions, and
reset the pose at the end. -/
def bake_eye {V : Type} (deform : List PoseBone → V) (arm : ArmatureObj)
    (mesh : EyeMesh V) (cfg : EyeConfig) :
    Except String (ArmatureObj × EyeMesh V) :=
  match bakeEyeLoop deform cfg cfg.rotations arm (ensure_basis mesh) with
  | .error e => .error e
  | .ok (arm2, mesh2) => .ok (reset_pose arm2, mesh2)

/-- The whole script: `bake_eye(LEFT)` then `bake_eye(RIGHT)` on the shared
armature. -/
def build_eyes {V : Type} (deformL deformR : List PoseBone → V)
    (arm : ArmatureObj) (meshL meshR : EyeMesh V) :
    Except String (ArmatureObj × EyeMesh V × EyeMesh V) :=
  match bake_eye deformL arm meshL LEFT with
  | .error e => .error e
  | .ok (arm1, meshL2) =>
    match bake_eye deformR arm1 meshR RIGHT with
    | .error e => .error e
    | .ok (arm2, meshR2) => .ok (arm2, meshL2, meshR2)

/-- Bone names of an armature. -/
def armNames (arm : ArmatureObj) : List String := arm.pose.map (fun b => b.name)

/-- Concrete armature for instantiating claim C6. -/
def c6Arm : ArmatureObj :=
  ⟨[⟨"LeftEye", (0, 0, 0), "XYZ", (0, 0, 0), (1, 1, 1)⟩,
    ⟨"RightEye", (0, 0, 0), "XYZ", (0, 0, 0), (1, 1, 1)⟩]⟩

/-- Concrete left eyeball mesh with a visible Armature modifier. -/
def c6MeshL : EyeMesh Unit :=
  ⟨"AvatarLeftEyeball", (), [], [⟨"Armature", "ARMATURE", true⟩]⟩

/-- Concrete right eyeball mesh with a visible Armature modifier. -/
def c6MeshR : EyeMesh Unit :=
  ⟨"AvatarRightEyeball", (), [], [⟨"Armature", "ARMATURE", true⟩]⟩

/-! ### `copy_pose` (MPFB/talkinghead-addon.py)

`copy_pose(bones)` builds a Python dict and copies its JSON serialisation to
the clipboard.  Matrices stay abstract: the model takes the matrix type `M`
and the mathutils operations the source uses (`inverted()`, `@`,
`to_translation()`, `to_quaternion()`, `Matrix.Identity(4)`) as parameters.
A pose bone carries `bone.parent.matrix` when the bone has a parent.
Quaternions extracted from matrices are rational 4-tuples;
`ROOT_FIX = Quaternion((1, 0, 0), -pi / 2)` has irrational components, so it
stays a parameter as well.  Python `round` (round half to even) is modelled
exactly on ℚ; the float representation of the host is elided. -/

/-- A rotation quaternion as extracted by `to_quaternion()`. -/
structure Quat where
  x : ℚ
  y : ℚ
  z : ℚ
  w : ℚ

/-- Hamilton product, the mathutils `@` on `Quaternion`. -/
def quatMul (a b : Quat) : Quat :=
  ⟨a.w * b.x + a.x * b.w + a.y * b.z - a.z * b.y,
   a.w * b.y - a.x * b.z + a.y * b.w + a.z * b.x,
   a.w * b.z + a.x * b.y - a.y * b.x + a.z * b.w,
   a.w * b.w - a.x * b.x - a.y * b.y - a.z * b.z⟩

/-- Python built-in `round` to an integer: round half to even. -/
def pyRound (q : ℚ) : ℤ :=
  let f := q.floor
  if q - (f : ℚ) < 1 / 2 then f
  else if 1 / 2 < q - (f : ℚ) then f + 1
  else if f % 2 = 0 then f else f + 1

/-- Python `round(q, dp)`. -/
def roundTo (dp : Nat) (q : ℚ) : ℚ :=
  (pyRound (q * 10 ^ dp) : ℚ) / 10 ^ dp

/-- A value of the `copy_pose` output dict: a position record
`{"x": _, "y": _, "z": _}` or a quaternion record. -/
inductive PoseVal where
  | pos (x y z : ℚ)
  | quat (x y z w : ℚ)

/-- Python dict assignment `d[k] = v` on an insertion-ordered association
list: overwrite in place when the key exists, append otherwise. -/
def dictInsert (d : List (String × PoseVal)) (k : String) (v : PoseVal) :
    List (String × PoseVal) :=
  if (d.find? (fun p => p.1 == k)).isSome then
    d.map (fun p => if p.1 == k then (k, v) else p)
  else d ++ [(k, v)]

/-- A pose bone as consumed by `copy_pose`; `parentMatrix` is
`bone.parent.matrix` when the bone has a parent. -/
structure PBone (M : Type) where
  name : String
  select : Bool
  matrix : M
  parentMatrix : Option M

/-- The substrings whose presence in a bone name makes `copy_pose` skip the
bone (the default `skip` argument). -/
def copySkip : List String :=
  ["Buttock", "Breast", "Eye", "Jaw", "Orbicularis", "_End", "4"]

/-- The `only_selected` and skip-list tests of the quaternion loop: `true`
exactly when the loop body runs for the bone. -/
def cpTakes {M : Type} (only_selected : Bool) (b : PBone M) : Bool :=
  !(only_selected && !b.select) &&
    !(copySkip.any (fun k => containsSub k.data b.name.data))

section CopyPose

variable {M : Type} (inverted : M → M) (matmul : M → M → M)
  (toTranslation : M → ℚ × ℚ × ℚ) (toQuaternion : M → Quat)
  (identity4 : M) (rootFix : Quat)

/-- `parent_matrix.inverted() @ bone.matrix`. -/
def localMatrix (b : PBone M) : M :=
  matmul (inverted (b.parentMatrix.getD identity4)) b.matrix

/-- The `"Hips.position"` block of `copy_pose`: written exactly when a bone
named `Hips` is among the given bones; the output `y` comes from the local
`z` and the output `z` from the local `y`, each rounded to 4 places. -/
def hipsPosEntry (bones : List (PBone M)) : List (String × PoseVal) :=
  match bones.find? (fun b => b.name == "Hips") with
  | some hips =>
      let pos := toTranslation (localMatrix inverted matmul identity4 hips)
      [("Hips.position",
        .pos (roundTo 4 pos.1) (roundTo 4 pos.2.2) (roundTo 4 pos.2.1))]
  | none => []

/-- The quaternion record written for a bone: the parent-relative rotation,
pre-multiplied by `ROOT_FIX` for `Hips` alone, rounded to 4 places. -/
def boneQuatVal (b : PBone M) : PoseVal :=
  let q0 := toQuaternion (localMatrix inverted matmul identity4 b)
  let q := if b.name == "Hips" then quatMul rootFix q0 else q0
  .quat (roundTo 4 q.x) (roundTo 4 q.y) (roundTo 4 q.z) (roundTo 4 q.w)

/-- `copy_pose` of `talkinghead-addon.py`: the dict whose JSON dump is placed
on the clipboard.  The `Hips.position` entry is written first; the loop then
adds one `<name>.quaternion` entry per processed bone. -/
def copy_pose (only_selected : Bool) (bones : List (PBone M)) :
    List (String × PoseVal) :=
  bones.foldl
    (fun out b =>
      if !(cpTakes only_selected b) then out
      else
        dictInsert out (b.name ++ ".quaternion")
          (boneQuatVal inverted matmul toQuaternion identity4 rootFix b))
    (hipsPosEntry inverted matmul toTranslation identity4 bones)

end CopyPose

/-- Concrete bones for the C7 witness: `Hips` (kept, with the root fix),
`Spine` (kept) and `LeftEye` (skipped: its name contains `"Eye"`). -/
def c7Bones : List (PBone Unit) :=
  [⟨"Hips", true, (), none⟩, ⟨"Spine", true, (), some ()⟩,
   ⟨"LeftEye", true, (), some ()⟩]

/-! ### `fix_bone_axes` (MPFB/talkinghead-addon.py)

`fix_bone_axes(selected_objects, reference_data)` returns immediately unless
a first selected object exists and is an armature.  Otherwise it saves the
armature mode, enters EDIT mode, iterates the reference table and calls
`bone.align_roll(ref_z)` on the edit bone named by each entry that exists in
the armature, then restores the saved mode.  `align_roll` changes only the
bone roll, computing it from the bone's rest geometry (head/tail axis) and
the reference vector; the rest geometry stays abstract (`β`), and
`align_roll` is the abstract function `alignRoll`. -/

/-- An edit bone: the roll plus all other (rest) bone data. -/
structure EditBone (β : Type) where
  name : String
  roll : ℚ
  rest : β

/-- An object as consumed by `fix_bone_axes`: `arm.type`, `arm.mode` and
`arm.data.edit_bones`. -/
structure ArmObj (β : Type) where
  otype : String
  mode : String
  bones : List (EditBone β)

/-- `BONE_AXES_DATA_A` of `talkinghead-addon.py` (float literals transcribed
exactly as rationals). -/
def boneAxesDataA : List (String × (ℚ × ℚ × ℚ)) := [
  ("Hips", (-5.2e-05, -0.998203, 0.059929)),
  ("Spine", (0.0, -0.996171, 0.087425)),
  ("Spine1", (0.0, -0.987185, 0.159581)),
  ("Spine2", (0.0, -0.999456, 0.032991)),
  ("Neck", (0.0, -0.969599, -0.244701)),
  ("Head", (0.0, -0.990155, -0.139976)),
  ("HeadTop_End", (0.0, -0.999963, 0.008631)),
  ("LeftEye", (0.0, -1.0, -1e-06)),
  ("RightEye", (0.0, -1.0, -1e-06)),
  ("LeftShoulder", (-0.151138, -0.082852, -0.985034)),
  ("LeftArm", (-0.815869, -0.021867, -0.577823)),
  ("LeftForeArm", (-0.834663, -0.033902, -0.549716)),
  ("LeftHand", (-0.871253, -0.240784, -0.427717)),
  ("LeftHandThumb1", (-0.979576, 0.01469, -0.200537)),
  ("LeftHandThumb2", (-0.990165, 0.050792, -0.130362)),
  ("LeftHandThumb3", (-0.990548, 0.133887, -0.029803)),
  ("LeftHandThumb4", (-0.982724, 0.143109, -0.117362)),
  ("LeftHandIndex1", (-0.952265, -0.172639, -0.251768)),
  ("LeftHandIndex2", (-0.997518, 0.069974, 0.00784)),
  ("LeftHandIndex3", (-0.952339, 0.112914, 0.283375)),
  ("LeftHandIndex4", (-0.981243, 0.138231, 0.134369)),
  ("LeftHandMiddle1", (-0.95345, -0.167392, -0.250825)),
  ("LeftHandMiddle2", (-0.999991, -0.003639, 0.002207)),
  ("LeftHandMiddle3", (-0.957252, 0.115679, 0.265117)),
  ("LeftHandMiddle4", (-0.990951, 0.050408, 0.124401)),
  ("LeftHandRing1", (-0.973135, -0.11216, -0.201068)),
  ("LeftHandRing2", (-0.992599, 0.026764, 0.118453)),
  ("LeftHandRing3", (-0.982528, 0.021169, 0.184907)),
  ("LeftHandRing4", (-0.988071, 0.017294, 0.153022)),
  ("LeftHandPinky1", (-0.991241, -0.110026, -0.073046)),
  ("LeftHandPinky2", (-0.995879, -0.021261, 0.088166)),
  ("LeftHandPinky3", (-0.95455, -0.050898, 0.293674)),
  ("LeftHandPinky4", (-0.977236, -0.023028, 0.210903)),
  ("RightShoulder", (0.151135, -0.082851, -0.985035)),
  ("RightArm", (0.815869, -0.021866, -0.577823)),
  ("RightForeArm", (0.834662, -0.033902, -0.549718)),
  ("RightHand", (0.871253, -0.240786, -0.427716)),
  ("RightHandThumb1", (0.979575, 0.01469, -0.200541)),
  ("RightHandThumb2", (0.990162, 0.050799, -0.130378)),
  ("RightHandThumb3", (0.990548, 0.133889, -0.029803)),
  ("RightHandThumb4", (0.982726, 0.143103, -0.11735)),
  ("RightHandIndex1", (0.952265, -0.172638, -0.25177)),
  ("RightHandIndex2", (0.997517, 0.069984, 0.007823)),
  ("RightHandIndex3", (0.952336, 0.112908, 0.283387)),
  ("RightHandIndex4", (0.981243, 0.138224, 0.134377)),
  ("RightHandMiddle1", (0.95345, -0.167392, -0.250825)),
  ("RightHandMiddle2", (0.999991, -0.003634, 0.002195)),
  ("RightHandMiddle3", (0.957253, 0.115682, 0.265111)),
  ("RightHandMiddle4", (0.990952, 0.050412, 0.124391)),
  ("RightHandRing1", (0.973135, -0.112159, -0.20107)),
  ("RightHandRing2", (0.992599, 0.026759, 0.118457)),
  ("RightHandRing3", (0.982531, 0.02118, 0.184889)),
  ("RightHandRing4", (0.98807, 0.017285, 0.153033)),
  ("RightHandPinky1", (0.991241, -0.110026, -0.07305)),
  ("RightHandPinky2", (0.99588, -0.021254, 0.088156)),
  ("RightHandPinky3", (0.954545, -0.050908, 0.293686)),
  ("RightHandPinky4", (0.977238, -0.023023, 0.210895)),
  ("LeftUpLeg", (-7.5e-05, -0.998602, -0.052867)),
  ("LeftLeg", (0.004224, -0.991791, -0.127801)),
  ("LeftFoot", (0.001783, -0.615151, 0.788407)),
  ("LeftToeBase", (0.003772, 0.011869, 0.999922)),
  ("LeftToe_End", (-0.999999, 0.000551, -0.001637)),
  ("RightUpLeg", (8.2e-05, -0.998602, -0.052868)),
  ("RightLeg", (-0.004216, -0.99179, -0.127804)),
  ("RightFoot", (-0.001774, -0.615152, 0.788406)),
  ("RightToeBase", (-0.003964, 0.011892, 0.999921)),
  ("RightToe_End", (0.999998, 0.000574, -0.001683))]

/-- `BONE_AXES_DATA_T` of `talkinghead-addon.py` (float literals transcribed
exactly as rationals). -/
def boneAxesDataT : List (String × (ℚ × ℚ × ℚ)) := [
  ("Head", (3.81044e-07, -0.990155, -0.139976)),
  ("HeadTop_End", (2.93097e-07, -0.999963, 0.00863087)),
  ("Hips", (-5.23035e-05, -0.998203, 0.0599285)),
  ("LeftArm", (0.00021426, 0.022599, -0.999745)),
  ("LeftEye", (3.09573e-07, -1, -4.76837e-07)),
  ("LeftFoot", (0.0541387, -0.600338, 0.797912)),
  ("LeftForeArm", (-0.0341937, 0.0119785, -0.999343)),
  ("LeftHand", (0.0907265, -0.16043, -0.982869)),
  ("LeftHandIndex1", (-0.0292601, -0.187298, -0.981867)),
  ("LeftHandIndex2", (-0.0339214, -0.121124, -0.992058)),
  ("LeftHandIndex3", (-0.0334821, -0.213779, -0.976308)),
  ("LeftHandIndex4", (0.091196, -0.124351, -0.988039)),
  ("LeftHandMiddle1", (-0.0301688, -0.174304, -0.98423)),
  ("LeftHandMiddle2", (-0.033935, -0.128504, -0.991128)),
  ("LeftHandMiddle3", (-0.0339587, -0.142883, -0.989157)),
  ("LeftHandMiddle4", (0.124358, -0.132995, -0.983284)),
  ("LeftHandPinky1", (-0.029454, -0.149489, -0.988325)),
  ("LeftHandPinky2", (-0.0339946, -0.0815342, -0.996091)),
  ("LeftHandPinky3", (-0.0338747, -0.15072, -0.987996)),
  ("LeftHandPinky4", (0.045214, -0.107585, -0.993167)),
  ("LeftHandRing1", (-0.0294886, -0.135611, -0.990323)),
  ("LeftHandRing2", (-0.034015, -0.0966198, -0.99474)),
  ("LeftHandRing3", (-0.0340394, -0.122593, -0.991873)),
  ("LeftHandRing4", (-0.00197432, -0.116866, -0.993146)),
  ("LeftHandThumb1", (-0.454559, 0.115889, -0.883145)),
  ("LeftHandThumb2", (-0.47989, 0.0847829, -0.873222)),
  ("LeftHandThumb3", (-0.477725, 0.0894662, -0.873942)),
  ("LeftHandThumb4", (-0.39936, 0.107931, -0.910419)),
  ("LeftLeg", (-0.0025901, -0.997624, -0.0688498)),
  ("LeftShoulder", (0.0955264, -0.0356792, -0.994787)),
  ("LeftToeBase", (0.0485404, 0.0274734, 0.998443)),
  ("LeftToe_End", (-0.999978, 0.00660707, 0.000249416)),
  ("LeftUpLeg", (-0.00191275, -0.999998, 0.000967459)),
  ("Neck", (2.55582e-07, -0.969599, -0.244701)),
  ("RightArm", (-0.000215599, 0.0225984, -0.999745)),
  ("RightEye", (3.09573e-07, -1, -4.76837e-07)),
  ("RightFoot", (-0.0541308, -0.600241, 0.797985)),
  ("RightForeArm", (0.0341911, 0.0119773, -0.999344)),
  ("RightHand", (-0.0907132, -0.160435, -0.982869)),
  ("RightHandIndex1", (0.0292433, -0.187301, -0.981867)),
  ("RightHandIndex2", (0.0339327, -0.121103, -0.99206)),
  ("RightHandIndex3", (0.0334897, -0.213786, -0.976306)),
  ("RightHandIndex4", (-0.0911881, -0.124356, -0.988039)),
  ("RightHandMiddle1", (0.0301564, -0.174307, -0.984229)),
  ("RightHandMiddle2", (0.0338937, -0.128498, -0.99113)),
  ("RightHandMiddle3", (0.0339647, -0.142883, -0.989157)),
  ("RightHandMiddle4", (-0.124356, -0.132992, -0.983285)),
  ("RightHandPinky1", (0.0294101, -0.149479, -0.988327)),
  ("RightHandPinky2", (0.0339885, -0.0815093, -0.996093)),
  ("RightHandPinky3", (0.0339319, -0.150714, -0.987995)),
  ("RightHandPinky4", (-0.045171, -0.107558, -0.993172)),
  ("RightHandRing1", (0.0294796, -0.135614, -0.990323)),
  ("RightHandRing2", (0.034038, -0.0966193, -0.994739)),
  ("RightHandRing3", (0.0340057, -0.12257, -0.991877)),
  ("RightHandRing4", (0.00196401, -0.11687, -0.993145)),
  ("RightHandThumb1", (0.454551, 0.115871, -0.883152)),
  ("RightHandThumb2", (0.479888, 0.0847768, -0.873224)),
  ("RightHandThumb3", (0.477711, 0.0894437, -0.873952)),
  ("RightHandThumb4", (0.399355, 0.1079, -0.910425)),
  ("RightLeg", (0.00260206, -0.997627, -0.0687953)),
  ("RightShoulder", (-0.0955169, -0.0356809, -0.994788)),
  ("RightToeBase", (-0.0487178, 0.0275893, 0.998431)),
  ("RightToe_End", (0.99906, 0.00601406, 0.0429352)),
  ("RightUpLeg", (0.00192306, -0.999998, 0.00102428)),
  ("Spine", (3.02932e-07, -0.996171, 0.0874251)),
  ("Spine1", (4.99894e-07, -0.987185, 0.159582)),
  ("Spine2", (2.4899e-07, -0.999456, 0.0329908))]

/-- `edit_bones[name].align_roll(ref_z)`: bpy collection indexing returns the
first bone with the given name; its roll is recomputed, everything else kept. -/
def alignFirst {β : Type} (alignRoll : β → ℚ × ℚ × ℚ → ℚ) (nm : String)
    (z : ℚ × ℚ × ℚ) : List (EditBone β) → List (EditBone β)
  | [] => []
  | b :: bs =>
    if b.name == nm then { b with roll := alignRoll b.rest z } :: bs
    else b :: alignFirst alignRoll nm z bs

/-- `fix_bone_axes` of `talkinghead-addon.py`. -/
def fix_bone_axes {β : Type} (alignRoll : β → ℚ × ℚ × ℚ → ℚ)
    (reference_data : List (String × (ℚ × ℚ × ℚ))) :
    List (ArmObj β) → List (ArmObj β)
  | [] => []
  | arm :: rest =>
    if arm.otype ≠ "ARMATURE" then arm :: rest
    else
      let prev_mode := arm.mode
      let arm1 : ArmObj β := { arm with mode := "EDIT" }
      let arm2 : ArmObj β := { arm1 with
        bones := reference_data.foldl
          (fun bs e => alignFirst alignRoll e.1 e.2 bs) arm1.bones }
      { arm2 with mode := prev_mode } :: rest

/-- The per-bone effect `fix_bone_axes` is claimed to have: a bone whose name
is a key of the table gets its roll aligned to that entry's reference z
direction; any other bone is untouched. -/
def specAxisFix {β : Type} (alignRoll : β → ℚ × ℚ × ℚ → ℚ)
    (table : List (String × (ℚ × ℚ × ℚ))) (b : EditBone β) : EditBone β :=
  match table.find? (fun e => e.1 == b.name) with
  | some e => { b with roll := alignRoll b.rest e.2 }
  | none => b

/-- Concrete armature for the C8 witness: one bone named by the table
(`Hips`) and one foreign bone. -/
def c8Arm : ArmObj Unit :=
  ⟨"ARMATURE", "POSE", [⟨"Hips", 0, ()⟩, ⟨"Custom", 1, ()⟩]⟩

/-- `c8Arm` with every bone passed through `specAxisFix`. -/
def c8Aligned : ArmObj Unit :=
  { c8Arm with bones := List.map (specAxisFix (fun _ _ => (0 : ℚ)) boneAxesDataA) c8Arm.bones }

/-! ### Theorems -/

/-- Characters lost to a matched occurrence never exceed the fuel spent, so a
string whose length is at most the fuel is processed identically for any
larger fuel. -/
theorem removeSubAux_fuel (pat : List Char) :
    ∀ fuel₁ fuel₂ s, s.length ≤ fuel₁ → s.length ≤ fuel₂ →
      removeSubAux pat fuel₁ s = removeSubAux pat fuel₂ s := by
  intro fuel₁
  induction fuel₁ with
  | zero =>
    intro fuel₂ s h1 _
    have : s = [] := List.eq_nil_of_length_eq_zero (Nat.le_zero.mp h1)
    subst this
    cases fuel₂ <;> rfl
  | succ n ih =>
    intro fuel₂ s h1 h2
    cases s with
    | nil => cases fuel₂ <;> rfl
    | cons c cs =>
      cases fuel₂ with
      | zero => exact absurd h2 (by simp)
      | succ m =>
        have h1' : cs.length ≤ n := by simpa using h1
        have h2' : cs.length ≤ m := by simpa using h2
        have hd : (cs.drop (pat.length - 1)).length ≤ cs.length := by
          simp
        simp only [removeSubAux]
        split
        · exact ih m (cs.drop (pat.length - 1)) (le_trans hd h1') (le_trans hd h2')
        · rw [ih m cs h1' h2']

/-- Unfolding lemma for `removeSub` on a cons cell. -/
theorem removeSub_cons (pat : List Char) (c : Char) (cs : List Char) :
    removeSub pat (c :: cs) =
      if 1 ≤ pat.length ∧ startsWith pat (c :: cs) = true then
        removeSubAux pat cs.length (cs.drop (pat.length - 1))
      else
        c :: removeSub pat cs := by
  simp only [removeSub, List.length_cons, removeSubAux]

/-- A string that does not contain the pattern is unchanged by `removeSub`. -/
theorem removeSub_of_not_contains (pat : List Char) :
    ∀ s, containsSub pat s = false → removeSub pat s = s := by
  intro s
  induction s with
  | nil => intro _; rfl
  | cons c cs ih =>
    intro h
    simp only [containsSub, Bool.or_eq_false_iff] at h
    rw [removeSub_cons]
    rw [if_neg (by simp [h.1]), ih h.2]

theorem getStore_eq_default {α : Type} (st : List (Nat × α)) (i : Nat) (d : α)
    (h : st.find? (fun p => p.1 == i) = none) : getStore st i d = d := by
  simp [getStore, h]

theorem setStore_cons {α : Type} (q : Nat × α) (st : List (Nat × α)) (i : Nat) (a : α) :
    setStore (q :: st) i a = (if q.1 = i then (i, a) else q) :: setStore st i a := by
  by_cases hq : q.1 = i <;> simp [setStore, hq]

theorem getStore_cons {α : Type} (q : Nat × α) (st : List (Nat × α)) (i : Nat) (d : α) :
    getStore (q :: st) i d = if q.1 = i then q.2 else getStore st i d := by
  unfold getStore
  by_cases hq : q.1 = i
  · rw [List.find?_cons_of_pos _ (by simpa using hq), if_pos hq]
  · rw [List.find?_cons_of_neg _ (by simpa using hq), if_neg hq]

theorem getStore_setStore_ne {α : Type} (st : List (Nat × α)) (i j : Nat) (a d : α)
    (h : i ≠ j) : getStore (setStore st i a) j d = getStore st j d := by
  induction st with
  | nil => rfl
  | cons p st ih =>
    rw [setStore_cons, getStore_cons, getStore_cons]
    by_cases hp : p.1 = i
    · rw [if_pos hp, if_neg (by simpa using h), if_neg (by rw [hp]; exact h), ih]
    · rw [if_neg hp]
      by_cases hj : p.1 = j
      · rw [if_pos hj, if_pos hj]
      · rw [if_neg hj, if_neg hj, ih]

theorem getStore_setStore_self {α : Type} (st : List (Nat × α)) (i : Nat) (a d : α) :
    getStore (setStore st i a) i d =
      if (st.find? (fun p => p.1 == i)).isSome then a else getStore st i d := by
  induction st with
  | nil => rfl
  | cons p st ih =>
    rw [setStore_cons, getStore_cons]
    by_cases hp : p.1 = i
    · rw [if_pos hp,
        @List.find?_cons_of_pos _ (fun q => q.1 == i) p st (by simpa using hp)]
      simp
    · rw [if_neg hp, if_neg hp, ih,
        @List.find?_cons_of_neg _ (fun q => q.1 == i) p st (by simpa using hp),
        getStore_cons, if_neg hp]

theorem runVisits_getStore {α : Type} (f : α → α) (d : α) (hf : f d = d) (i : Nat) :
    ∀ (vs : List (Nat × Bool)) (st : List (Nat × α)),
      getStore (runVisits f d vs st) i d =
        f^[(vs.filter (fun p => p.1 == i && p.2)).length] (getStore st i d) := by
  intro vs
  induction vs with
  | nil => intro st; rfl
  | cons v vs ih =>
    intro st
    obtain ⟨j, hb⟩ := v
    simp only [runVisits]
    cases hb with
    | false =>
      simp only [Bool.false_eq_true, if_false]
      rw [ih st]
      simp
    | true =>
      simp only [if_true]
      by_cases hij : j = i
      · subst hij
        rw [ih]
        have hset : getStore (setStore st j (f (getStore st j d))) j d
            = f (getStore st j d) := by
          rw [getStore_setStore_self]
          cases hfind : st.find? (fun p => p.1 == j) with
          | none =>
            simp only [hfind, Option.isSome_none, Bool.false_eq_true, if_false]
            rw [getStore_eq_default st j d hfind, hf]
          | some p => simp
        rw [hset]
        have hflt : ((⟨j, true⟩ :: vs : List (Nat × Bool)).filter
            (fun p => p.1 == j && p.2)).length =
            ((vs.filter (fun p => p.1 == j && p.2)).length) + 1 := by
          simp [List.filter_cons]
        rw [hflt, Function.iterate_succ_apply]
      · rw [ih, getStore_setStore_ne st j i _ d hij]
        have hflt : ((⟨j, true⟩ :: vs : List (Nat × Bool)).filter
            (fun p => p.1 == i && p.2)) = vs.filter (fun p => p.1 == i && p.2) := by
          simp [List.filter_cons, show (j == i) = false from by simpa using hij]
        rw [hflt]

theorem map_iterate {α : Type} (g : α → α) (n : Nat) (l : List α) :
    (List.map g)^[n] l = l.map (g^[n]) := by
  induction n generalizing l with
  | zero => simp
  | succ n ih =>
    rw [Function.iterate_succ_apply, ih, List.map_map]
    rfl

theorem renameBone_of_not_contains (b : String)
    (h : containsSub mixamoPat b.data = false) : renameBone b = b := by
  unfold renameBone
  rw [removeSub_of_not_contains mixamoPat b.data h]

theorem renameMixamoPass_iterate (n : Nat) (l : List String) :
    renameMixamoPass^[n] l = l.map (renameBone^[n]) := by
  have : renameMixamoPass = List.map renameBone := rfl
  rw [this, map_iterate]

/-- Claim C9 as stated is false: in `mixamoCexScene` the armature is visited
twice, and the bone name `mimixamorig:xamorig:` regrows an occurrence of
`mixamorig:` after the first pass, so the final name is the result of two
replacement passes, not of one. -/
theorem C9_counterexample :
    getStore (runMixamoScript mixamoCexScene mixamoCexStore) 1 [] ≠
      renameMixamoPass (getStore mixamoCexStore 1 []) := by
  decide

/-- Claim C9, amended: `rename-mixamo-bones.py` applies one
remove-all-occurrences pass per guarded visit of the armature (one visit for
the object itself plus one for each occurrence as a descendant of another
scene object); a bone whose name does not contain `mixamorig:` keeps its
name; when the armature is visited exactly once, every bone ends with its
old name with all occurrences of `mixamorig:` removed in one pass. -/
theorem C9_mixamo_rename_amended (scene : List ObjTree)
    (st : List (Nat × List String)) (i : Nat) :
    getStore (runMixamoScript scene st) i [] =
      (getStore st i []).map (renameBone^[visitCount scene i]) ∧
    (∀ b ∈ getStore st i [], containsSub mixamoPat b.data = false →
      renameBone^[visitCount scene i] b = b) ∧
    (visitCount scene i = 1 →
      getStore (runMixamoScript scene st) i [] =
        renameMixamoPass (getStore st i [])) := by
  have h1 : getStore (runMixamoScript scene st) i [] =
      (getStore st i []).map (renameBone^[visitCount scene i]) := by
    rw [runMixamoScript, runScript,
      runVisits_getStore renameMixamoPass [] rfl i (traverseForest scene) st]
    rw [show (List.filter (fun p => p.1 == i && p.2) (traverseForest scene)).length
      = visitCount scene i from rfl]
    exact renameMixamoPass_iterate _ _
  refine ⟨h1, fun b _ hb => Function.iterate_fixed (renameBone_of_not_contains b hb) _,
    fun hv => ?_⟩
  rw [h1, hv]
  simp only [Function.iterate_one]
  rfl

/-- Witness instantiating `C9_mixamo_rename_amended` on a concrete scene and
store and discharging its inner hypotheses. -/
theorem C9_mixamo_rename_amended_witness :
    getStore (runMixamoScript mixamoCexScene mixamoCexStore) 1 [] =
      (getStore mixamoCexStore 1 []).map
        (renameBone^[visitCount mixamoCexScene 1]) ∧
    renameBone^[visitCount mixamoCexScene 1] "Hips" = "Hips" := by
  refine ⟨(C9_mixamo_rename_amended mixamoCexScene mixamoCexStore 1).1, ?_⟩
  exact Function.iterate_fixed
    (renameBone_of_not_contains "Hips" (by decide)) _

theorem two_le_count_of_getElem? {α : Type} [BEq α] [LawfulBEq α] :
    ∀ (l : List α) (a : α) (i j : Nat), i ≠ j →
      l[i]? = some a → l[j]? = some a → 2 ≤ l.count a := by
  intro l
  induction l with
  | nil => intro a i j _ hi _; simp at hi
  | cons x xs ih =>
    intro a i j hij hi hj
    match i, j with
    | 0, 0 => exact absurd rfl hij
    | 0, k + 1 =>
      have hx : x = a := by simpa using hi
      have hmem : a ∈ xs := List.getElem?_mem (by simpa using hj)
      have h1 : 1 ≤ xs.count a := List.count_pos_iff.mpr hmem
      subst hx
      simp only [List.count_cons_self]
      omega
    | m + 1, 0 =>
      have hx : x = a := by simpa using hj
      have hmem : a ∈ xs := List.getElem?_mem (by simpa using hi)
      have h1 : 1 ≤ xs.count a := List.count_pos_iff.mpr hmem
      subst hx
      simp only [List.count_cons_self]
      omega
    | m + 1, k + 1 =>
      have := ih a m k (by omega) (by simpa using hi) (by simpa using hj)
      have hc : (x :: xs).count a = xs.count a + (if x == a then 1 else 0) := by
        simp [List.count_cons]
      omega

theorem count_set_le {α : Type} [BEq α] [LawfulBEq α] (l : List α) (i : Nat) (a b : α)
    (h : b ≠ a) : (l.set i b).count a ≤ l.count a := by
  by_cases hi : i < l.length
  · rw [List.count_set b a l i hi]
    have : (b == a) = false := beq_false_of_ne h
    rw [this]
    simp only [Bool.false_eq_true, if_false]
    omega
  · rw [List.set_eq_of_length_le (by omega)]

theorem findIdx?_some_char {α : Type} {p : α → Bool} :
    ∀ (l : List α) (i : Nat), l.findIdx? p = some i →
      i < l.length ∧ (∃ x, l[i]? = some x ∧ p x = true) ∧
        (∀ j, j < i → ∀ x, l[j]? = some x → p x = false) := by
  intro l
  induction l with
  | nil => intro i h; simp [List.findIdx?] at h
  | cons x xs ih =>
    intro i h
    rw [List.findIdx?_cons] at h
    by_cases hx : p x = true
    · rw [if_pos hx] at h
      obtain rfl : (0 : Nat) = i := by simpa using h
      exact ⟨by simp, ⟨x, by simp, hx⟩, fun j hj => by omega⟩
    · rw [if_neg hx, List.findIdx?_succ] at h
      cases hfind : xs.findIdx? p with
      | none => rw [hfind] at h; simp at h
      | some k =>
        rw [hfind] at h
        obtain rfl : k + 1 = i := by simpa using h
        obtain ⟨hlen, ⟨y, hy, hpy⟩, hmin⟩ := ih k hfind
        refine ⟨by simpa using hlen, ⟨y, by simpa using hy, hpy⟩, ?_⟩
        intro j hj z hz
        match j with
        | 0 =>
          have : x = z := by simpa using hz
          subst this
          simpa using hx
        | m + 1 =>
          exact hmin m (by omega) z (by simpa using hz)

theorem specRename_cons_self {β : Type} (p : String × String)
    (rest : List (String × String)) (k : ShapeKeyBlock β) (h : p.1 = k.name) :
    specRename (p :: rest) k = ⟨p.2, k.payload⟩ := by
  unfold specRename
  rw [List.find?_cons_of_pos _ (by simpa using h)]

theorem specRename_cons_ne {β : Type} (p : String × String)
    (rest : List (String × String)) (k : ShapeKeyBlock β) (h : p.1 ≠ k.name) :
    specRename (p :: rest) k = specRename rest k := by
  unfold specRename
  rw [List.find?_cons_of_neg _ (by simpa using h)]

theorem specRename_of_not_source {β : Type} (map : List (String × String))
    (k : ShapeKeyBlock β) (h : ∀ q ∈ map, q.1 ≠ k.name) : specRename map k = k := by
  unfold specRename
  rw [List.find?_eq_none.mpr (fun q hq => by simpa using h q hq)]

theorem renameKeysPass_eq_spec {β : Type} :
    ∀ (map : List (String × String)) (keys : List (ShapeKeyBlock β)) (S : List String),
      (∀ q ∈ map, q.1 ∈ S) →
      (∀ q ∈ map, q.2 ∉ S) →
      (∀ q ∈ map, (keys.map (fun k => k.name)).count q.1 ≤ 1) →
      renameKeysPass map keys = keys.map (specRename map) := by
  intro map
  induction map with
  | nil =>
    intro keys S _ _ _
    simp only [renameKeysPass, List.foldl_nil]
    have hspec : keys.map (specRename ([] : List (String × String)))
        = keys.map id := List.map_congr_left (fun k _ => rfl)
    rw [hspec, List.map_id]
  | cons p rest ih =>
    intro keys S hsub hS hcount
    rw [renameKeysPass, List.foldl_cons]
    cases hfind : keys.findIdx? (fun k => k.name == p.1) with
    | none =>
      have happ : applyRenamePair keys p = keys := by
        unfold applyRenamePair
        rw [hfind]
      rw [happ]
      have hnone : ∀ k ∈ keys, k.name ≠ p.1 := by
        intro k hk
        simpa using List.findIdx?_eq_none_iff.mp hfind k hk
      have hIH := ih keys S (fun q hq => hsub q (List.mem_cons_of_mem p hq))
        (fun q hq => hS q (List.mem_cons_of_mem p hq))
        (fun q hq => hcount q (List.mem_cons_of_mem p hq))
      rw [show rest.foldl applyRenamePair keys = renameKeysPass rest keys from rfl, hIH]
      exact List.map_congr_left fun k hk =>
        (specRename_cons_ne p rest k fun e => hnone k hk e.symm).symm
    | some i =>
      obtain ⟨hlen, ⟨k0, hk0, hpk0⟩, _⟩ := findIdx?_some_char keys i hfind
      have hk0name : k0.name = p.1 := by simpa using hpk0
      have happ : applyRenamePair keys p = keys.set i ⟨p.2, k0.payload⟩ := by
        simp [applyRenamePair, hfind, hk0]
      rw [happ]
      have hcount' : ∀ q ∈ rest,
          (((keys.set i ⟨p.2, k0.payload⟩).map (fun k => k.name)).count q.1 ≤ 1) := by
        intro q hq
        have hq1S : q.1 ∈ S := hsub q (List.mem_cons_of_mem p hq)
        have hp2S : p.2 ∉ S := hS p (List.mem_cons_self p rest)
        have hne : p.2 ≠ q.1 := fun e => hp2S (e ▸ hq1S)
        rw [List.map_set]
        calc ((keys.map (fun k => k.name)).set i p.2).count q.1
            ≤ (keys.map (fun k => k.name)).count q.1 :=
              count_set_le _ _ _ _ hne
          _ ≤ 1 := hcount q (List.mem_cons_of_mem p hq)
      have hIH := ih (keys.set i ⟨p.2, k0.payload⟩) S
        (fun q hq => hsub q (List.mem_cons_of_mem p hq))
        (fun q hq => hS q (List.mem_cons_of_mem p hq)) hcount'
      rw [show rest.foldl applyRenamePair (keys.set i ⟨p.2, k0.payload⟩)
        = renameKeysPass rest (keys.set i ⟨p.2, k0.payload⟩) from rfl, hIH]
      apply List.ext_getElem?
      intro n
      rw [List.getElem?_map, List.getElem?_map]
      by_cases hn : n = i
      · subst hn
        rw [List.getElem?_set_self hlen, hk0]
        have h1 : specRename rest (⟨p.2, k0.payload⟩ : ShapeKeyBlock β)
            = ⟨p.2, k0.payload⟩ := by
          apply specRename_of_not_source
          intro q hq e
          have e2 : q.1 = p.2 := e
          exact hS p (List.mem_cons_self p rest) (e2 ▸ hsub q (List.mem_cons_of_mem p hq))
        have h2 : specRename (p :: rest) k0 = ⟨p.2, k0.payload⟩ :=
          specRename_cons_self p rest k0 hk0name.symm
        simp [h1, h2]
      · rw [List.getElem?_set_ne fun e => hn e.symm]
        cases hkn : keys[n]? with
        | none => simp
        | some k1 =>
          have hk1ne : k1.name ≠ p.1 := by
            intro e
            have hmapi : (keys.map (fun k => k.name))[i]? = some p.1 := by
              rw [List.getElem?_map, hk0]
              simp [hk0name]
            have hmapn : (keys.map (fun k => k.name))[n]? = some p.1 := by
              rw [List.getElem?_map, hkn]
              simp [e]
            have h2c := two_le_count_of_getElem? (keys.map (fun k => k.name)) p.1 i n
              (fun e2 => hn e2.symm) hmapi hmapn
            have := hcount p (List.mem_cons_self p rest)
            omega
          simp [specRename_cons_ne p rest k1 fun e => hk1ne e.symm]

theorem renameKeysPass_id {β : Type} :
    ∀ (map : List (String × String)) (keys : List (ShapeKeyBlock β)),
      (∀ q ∈ map, ∀ k ∈ keys, k.name ≠ q.1) →
      renameKeysPass map keys = keys := by
  intro map
  induction map with
  | nil => intro keys _; rfl
  | cons p rest ih =>
    intro keys h
    rw [renameKeysPass, List.foldl_cons]
    have hfind : keys.findIdx? (fun k => k.name == p.1) = none :=
      List.findIdx?_eq_none_iff.mpr fun k hk => by
        simpa using h p (List.mem_cons_self p rest) k hk
    have happ : applyRenamePair keys p = keys := by
      simp [applyRenamePair, hfind]
    rw [happ]
    exact ih keys fun q hq k hk => h q (List.mem_cons_of_mem p hq) k hk

theorem specRename_name_not_source {β : Type} (map : List (String × String))
    (S : List String) (hsub : ∀ q ∈ map, q.1 ∈ S) (hS : ∀ q ∈ map, q.2 ∉ S)
    (k : ShapeKeyBlock β) : ∀ q ∈ map, (specRename map k).name ≠ q.1 := by
  intro q hq
  unfold specRename
  cases hf : map.find? (fun p => p.1 == k.name) with
  | some p =>
    have hpmem : p ∈ map := List.mem_of_find?_eq_some hf
    intro e
    have e2 : p.2 = q.1 := e
    exact hS p hpmem (e2 ▸ hsub q hq)
  | none =>
    have hno := List.find?_eq_none.mp hf q hq
    intro e
    have e2 : k.name = q.1 := e
    exact hno (by simp [e2])

theorem renameKeysPass_iterate_eq_spec {β : Type} (map : List (String × String))
    (keys : List (ShapeKeyBlock β)) (S : List String)
    (hsub : ∀ q ∈ map, q.1 ∈ S) (hS : ∀ q ∈ map, q.2 ∉ S)
    (hcount : ∀ q ∈ map, (keys.map (fun k => k.name)).count q.1 ≤ 1)
    (v : Nat) (hv : 1 ≤ v) :
    (renameKeysPass map)^[v] keys = keys.map (specRename map) := by
  obtain ⟨n, rfl⟩ : ∃ n, v = n + 1 := ⟨v - 1, by omega⟩
  rw [Function.iterate_succ_apply, renameKeysPass_eq_spec map keys S hsub hS hcount]
  apply Function.iterate_fixed
  apply renameKeysPass_id
  intro q hq k hk
  obtain ⟨k0, _, rfl⟩ := List.mem_map.mp hk
  exact specRename_name_not_source map S hsub hS k0 q hq

theorem find?_fst_eq_self (map : List (String × String))
    (hnodup : (map.map Prod.fst).Nodup) (m : String × String) (hm : m ∈ map) :
    map.find? (fun p => p.1 == m.1) = some m := by
  induction map with
  | nil => cases hm
  | cons q rest ih =>
    rcases List.mem_cons.mp hm with rfl | hm2
    · exact List.find?_cons_of_pos _ (by simp)
    · have hq : q.1 ≠ m.1 := by
        intro e
        have : q.1 ∈ rest.map Prod.fst := e ▸ List.mem_map_of_mem Prod.fst hm2
        exact (List.nodup_cons.mp (by simpa using hnodup)).1 this
      rw [List.find?_cons_of_neg _ (by simpa using hq)]
      exact ih (List.nodup_cons.mp (by simpa using hnodup)).2 hm2

/-- Claim C5: for each of the three rename scripts, on an object whose
shape-key names are distinct (as Blender guarantees) and however many times
the script traversal visits the object, for every pair `(source, target)` of
the shapekeyMap the first key block named `source` ends up renamed to
`target` with its other properties intact, every key block whose name is not
a source keeps its full contents and position, and no shape key is added or
removed. -/
theorem C5_rename_shapekeys {β : Type} (map : List (String × String))
    (hmap : map = rocketboxShapekeyMap ∨ map = avatarsdkShapekeyMap ∨
      map = tomcatShapekeyMap)
    (keys : List (ShapeKeyBlock β)) (hkeys : (keys.map (fun k => k.name)).Nodup)
    (v : Nat) (hv : 1 ≤ v) :
    ((renameKeysPass map)^[v] keys).length = keys.length ∧
    (∀ m ∈ map, ∀ i, keys.findIdx? (fun k => k.name == m.1) = some i →
      ∃ k, keys[i]? = some k ∧
        ((renameKeysPass map)^[v] keys)[i]? = some ⟨m.2, k.payload⟩) ∧
    (∀ (i : Nat) (k : ShapeKeyBlock β), keys[i]? = some k →
      (∀ m ∈ map, k.name ≠ m.1) →
      ((renameKeysPass map)^[v] keys)[i]? = some k) := by
  have hS : ∀ q ∈ map, q.2 ∉ map.map Prod.fst := by
    rcases hmap with rfl | rfl | rfl <;> decide
  have hnodupS : (map.map Prod.fst).Nodup := by
    rcases hmap with rfl | rfl | rfl <;> decide
  have hsub : ∀ q ∈ map, q.1 ∈ map.map Prod.fst :=
    fun q hq => List.mem_map_of_mem Prod.fst hq
  have hcount : ∀ q ∈ map, (keys.map (fun k => k.name)).count q.1 ≤ 1 :=
    fun q _ => List.nodup_iff_count_le_one.mp hkeys q.1
  have heq := renameKeysPass_iterate_eq_spec map keys (map.map Prod.fst)
    hsub hS hcount v hv
  refine ⟨by rw [heq]; exact List.length_map keys _, ?_, ?_⟩
  · intro m hm i hfind
    obtain ⟨_, ⟨k0, hk0, hpk0⟩, _⟩ := findIdx?_some_char keys i hfind
    refine ⟨k0, hk0, ?_⟩
    rw [heq, List.getElem?_map, hk0]
    have hname : k0.name = m.1 := by simpa using hpk0
    have hspec : specRename map k0 = ⟨m.2, k0.payload⟩ := by
      unfold specRename
      rw [show map.find? (fun p => p.1 == k0.name)
        = map.find? (fun p => p.1 == m.1) from by rw [hname],
        find?_fst_eq_self map hnodupS m hm]
    simp [hspec]
  · intro i k hk hnot
    rw [heq, List.getElem?_map, hk]
    have hspec : specRename map k = k :=
      specRename_of_not_source map k fun q hq e => hnot q hq e.symm
    simp [hspec]

/-- Witness instantiating `C5_rename_shapekeys` on the Rocketbox map with a
concrete keys list, discharging every hypothesis. -/
theorem C5_rename_shapekeys_witness :
    ((renameKeysPass rocketboxShapekeyMap)^[1] c5WitnessKeys).length
      = c5WitnessKeys.length ∧
    ∃ k, c5WitnessKeys[0]? = some k ∧
      ((renameKeysPass rocketboxShapekeyMap)^[1] c5WitnessKeys)[0]?
        = some ⟨"viseme_sil", k.payload⟩ := by
  have h := C5_rename_shapekeys rocketboxShapekeyMap (Or.inl rfl) c5WitnessKeys
    (by decide) 1 (by decide)
  exact ⟨h.1, h.2.1 ("AA_VI_00_Sil", "viseme_sil") (by decide) 0 (by decide)⟩

theorem set_getElem?_self {α : Type} (l : List α) (i : Nat) (a : α)
    (h : l[i]? = some a) : l.set i a = l := by
  have hi : i < l.length := by
    by_contra hc
    rw [List.getElem?_eq_none (by omega)] at h
    cases h
  apply List.ext_getElem?
  intro n
  by_cases hn : n = i
  · subst hn
    rw [List.getElem?_set_self hi, h]
  · rw [List.getElem?_set_ne fun e => hn e.symm]

theorem setMixValues_eq_map {V : Type} :
    ∀ (mix : List MixEntry) (ks : List (BKey V)),
      (ks.map (fun k => k.name)).Nodup →
      (mix.map (fun m => m.name)).Nodup →
      setMixValues ks mix = ks.map (fun k =>
        match mix.find? (fun m => m.name == k.name) with
        | some m => ⟨k.name, m.value, k.geo⟩
        | none => k) := by
  intro mix
  induction mix with
  | nil =>
    intro ks _ _
    have : ks.map (fun k =>
        match ([] : List MixEntry).find? (fun m => m.name == k.name) with
        | some m => (⟨k.name, m.value, k.geo⟩ : BKey V)
        | none => k) = ks.map id := List.map_congr_left (fun k _ => rfl)
    rw [this, List.map_id]
    rfl
  | cons m rest ih =>
    intro ks hks hmix
    have hmixrest : (rest.map (fun m => m.name)).Nodup :=
      (List.nodup_cons.mp (by simpa using hmix)).2
    have hmhead : m.name ∉ rest.map (fun m => m.name) :=
      (List.nodup_cons.mp (by simpa using hmix)).1
    rw [setMixValues, List.foldl_cons]
    cases hfind : ks.find? (fun k => k.name == m.name) with
    | none =>
      simp only [hfind, Option.isSome_none, Bool.false_eq_true, if_false]
      rw [show List.foldl _ ks rest = setMixValues ks rest from rfl, ih ks hks hmixrest]
      apply List.map_congr_left
      intro k hk
      have hkname : k.name ≠ m.name := by
        intro e
        have := List.find?_eq_none.mp hfind k hk
        simp [e] at this
      rw [List.find?_cons_of_neg _ (by simpa using fun e => hkname e.symm)]
    | some k0 =>
      simp only [hfind, Option.isSome_some, if_true]
      have hset : setKeyValue ks m.name m.value =
          ks.map (fun k => if k.name = m.name then ⟨k.name, m.value, k.geo⟩ else k) := by
        cases hidx : ks.findIdx? (fun k => k.name == m.name) with
        | none =>
          have : ks.find? (fun k => k.name == m.name) = none :=
            List.find?_eq_none.mpr fun x hx => by
              simpa using List.findIdx?_eq_none_iff.mp hidx x hx
          rw [this] at hfind
          cases hfind
        | some i =>
          obtain ⟨hlen, ⟨kk, hkk, hpkk⟩, _⟩ := findIdx?_some_char ks i hidx
          have hkkname : kk.name = m.name := by simpa using hpkk
          simp only [setKeyValue, hidx, hkk]
          apply List.ext_getElem?
          intro n
          rw [List.getElem?_map]
          by_cases hn : n = i
          · subst hn
            rw [List.getElem?_set_self hlen, hkk]
            simp [hkkname]
          · rw [List.getElem?_set_ne fun e => hn e.symm]
            cases hkn : ks[n]? with
            | none => simp
            | some k1 =>
              have hk1 : k1.name ≠ m.name := by
                intro e
                have hmapi : (ks.map (fun k => k.name))[i]? = some m.name := by
                  rw [List.getElem?_map, hkk]
                  simp [hkkname]
                have hmapn : (ks.map (fun k => k.name))[n]? = some m.name := by
                  rw [List.getElem?_map, hkn]
                  simp [e]
                have h2c := two_le_count_of_getElem? (ks.map (fun k => k.name))
                  m.name i n (fun e2 => hn e2.symm) hmapi hmapn
                have h1c := List.nodup_iff_count_le_one.mp hks m.name
                omega
              simp [hk1]
      rw [hset]
      have hnames : ((ks.map (fun k =>
          if k.name = m.name then (⟨k.name, m.value, k.geo⟩ : BKey V) else k)).map
            (fun k => k.name)) = ks.map (fun k => k.name) := by
        rw [List.map_map]
        apply List.map_congr_left
        intro k _
        by_cases hkm : k.name = m.name <;> simp [hkm]
      rw [show List.foldl _ (ks.map fun k =>
          if k.name = m.name then (⟨k.name, m.value, k.geo⟩ : BKey V) else k) rest
        = setMixValues (ks.map fun k =>
          if k.name = m.name then (⟨k.name, m.value, k.geo⟩ : BKey V) else k) rest
        from rfl]
      rw [ih _ (by rw [hnames]; exact hks) hmixrest]
      rw [List.map_map]
      apply List.map_congr_left
      intro k _
      by_cases hkm : k.name = m.name
      · have hrest : rest.find? (fun mm => mm.name == m.name) = none :=
          List.find?_eq_none.mpr fun mm hmm => by
            intro hbe
            apply hmhead
            have e1 : mm.name = m.name := by simpa using hbe
            rw [← e1]
            exact List.mem_map_of_mem (fun m => m.name) hmm
        simp only [Function.comp, hkm, if_true]
        rw [List.find?_cons_of_pos _ (by simp [hkm])]
        simp [hrest, hkm]
      · simp only [Function.comp, hkm, if_false]
        rw [List.find?_cons_of_neg _ (by simpa using fun e => hkm e.symm)]

theorem foldl_add_eq_sum {V : Type} [AddCommMonoid V] {α : Type} (g : α → V) :
    ∀ (l : List α) (z : V), l.foldl (fun acc x => acc + g x) z = z + (l.map g).sum := by
  intro l
  induction l with
  | nil => intro z; simp
  | cons x xs ih =>
    intro z
    rw [List.foldl_cons, ih (z + g x), List.map_cons, List.sum_cons, add_assoc]

theorem mixFromKeys_eq_sum {V : Type} [AddCommGroup V] [Module ℚ V]
    (b : BKey V) (rest : List (BKey V)) :
    mixFromKeys (b :: rest) =
      b.geo + ((b :: rest).map (fun k => k.value • (k.geo - b.geo))).sum := by
  rw [mixFromKeys]
  exact foldl_add_eq_sum (fun k => k.value • (k.geo - b.geo)) (b :: rest) b.geo

theorem setMixValues_zero_eq_weights {V : Type} (mix : List MixEntry)
    (ks : List (BKey V)) (hks : (ks.map (fun k => k.name)).Nodup)
    (hmix : (mix.map (fun m => m.name)).Nodup) :
    setMixValues (zeroValues ks) mix =
      ks.map (fun k => ⟨k.name, mixWeight mix k.name, k.geo⟩) := by
  have hznames : ((zeroValues ks).map (fun k => k.name)) = ks.map (fun k => k.name) := by
    rw [zeroValues, List.map_map]
    rfl
  rw [setMixValues_eq_map mix (zeroValues ks) (by rw [hznames]; exact hks) hmix,
    zeroValues, List.map_map]
  apply List.map_congr_left
  intro k _
  simp only [Function.comp]
  cases hf : mix.find? (fun m => m.name == k.name) with
  | some m => simp [mixWeight, hf]
  | none => simp [mixWeight, hf]

/-- Claim C4 as stated is false: the table of `build-visemes-from-arkit.py`
contains the entry `viseme_sil` (empty mix), the object has no key of that
name, and yet the script (override disabled, as in that file) creates no key
named `viseme_sil`, because a key is only created when at least one listed
component exists on the object. -/
theorem C4_counterexample :
    (∃ e ∈ visemesArkitShapekeys, e.name = "viseme_sil") ∧
    (∀ k ∈ c4CexKeys, k.name ≠ "viseme_sil") ∧
    (∀ k ∈ buildVisit false visemesArkitShapekeys c4CexKeys,
      k.name ≠ "viseme_sil") := by
  decide

/-- Claim C4, amended: per table entry, when override is disabled an entry
whose name already exists leaves the keys unchanged; after the override step
(override removes an existing key of the entry name first), if the name is
absent and no listed component exists the entry changes nothing further,
while if at least one listed component exists the script appends a new key
of the entry name with slider `0`, every other slider is reset to `0`, and
the new key's geometry is the evaluated mix that assigns to every key the
entry weight of its name (zero when unlisted): the basis geometry plus the
weighted sum of the key offsets from basis. -/
theorem C4_build_mix_amended {V : Type} [AddCommGroup V] [Module ℚ V]
    (override : Bool) (keys : List (BKey V)) (e : BuildEntry)
    (hkeys : ((overrideStep override keys e).map (fun k => k.name)).Nodup)
    (hmix : (e.mix.map (fun m => m.name)).Nodup) :
    (override = false → (keys.find? (fun k => k.name == e.name)).isSome →
      processEntry override keys e = keys) ∧
    ((((overrideStep override keys e).find? (fun k => k.name == e.name)).isSome
        = false) →
      (e.mix.any (fun m => ((overrideStep override keys e).find?
          (fun k => k.name == m.name)).isSome) = false →
        processEntry override keys e = overrideStep override keys e) ∧
      (e.mix.any (fun m => ((overrideStep override keys e).find?
          (fun k => k.name == m.name)).isSome) = true →
        processEntry override keys e =
          zeroValues ((overrideStep override keys e).map
            (fun k => (⟨k.name, mixWeight e.mix k.name, k.geo⟩ : BKey V))) ++
          [⟨e.name, 0, mixFromKeys ((overrideStep override keys e).map
            (fun k => (⟨k.name, mixWeight e.mix k.name, k.geo⟩ : BKey V)))⟩] ∧
        ∀ (b : BKey V) (rest : List (BKey V)),
          overrideStep override keys e = b :: rest →
          mixFromKeys ((overrideStep override keys e).map
            (fun k => (⟨k.name, mixWeight e.mix k.name, k.geo⟩ : BKey V))) =
          b.geo + (((overrideStep override keys e).map
            (fun k => (⟨k.name, mixWeight e.mix k.name, k.geo⟩ : BKey V))).map
              (fun k => k.value • (k.geo - b.geo))).sum)) := by
  constructor
  · intro hov hsome
    have h1 : overrideStep override keys e = keys := by
      rw [overrideStep, hov]
      rfl
    rw [processEntry]
    simp only [h1, hsome, if_true]
  · intro habsent
    constructor
    · intro hnone
      rw [processEntry]
      simp only [habsent, Bool.false_eq_true, if_false, hnone]
    · intro hany
      have hmixed := setMixValues_zero_eq_weights e.mix
        (overrideStep override keys e) hkeys hmix
      constructor
      · rw [processEntry]
        simp only [habsent, Bool.false_eq_true, if_false, hany, if_true]
        rw [hmixed, zeroValues, List.map_append]
        rfl
      · intro b rest hcons
        rw [hcons, List.map_cons, mixFromKeys_eq_sum, ← List.map_cons
          (fun k => (⟨k.name, mixWeight e.mix k.name, k.geo⟩ : BKey V)) b rest,
          ← hcons]

/-- Witness instantiating `C4_build_mix_amended` on concrete keys and the
`viseme_aa` entry, discharging every hypothesis. -/
theorem C4_build_mix_amended_witness :
    processEntry false c4WitnessKeys c4WitnessEntry =
      zeroValues ((overrideStep false c4WitnessKeys c4WitnessEntry).map
        (fun k => (⟨k.name, mixWeight c4WitnessEntry.mix k.name, k.geo⟩ : BKey ℚ))) ++
      [⟨c4WitnessEntry.name, 0,
        mixFromKeys ((overrideStep false c4WitnessKeys c4WitnessEntry).map
          (fun k => (⟨k.name, mixWeight c4WitnessEntry.mix k.name, k.geo⟩ : BKey ℚ)))⟩] :=
  (((C4_build_mix_amended false c4WitnessKeys c4WitnessEntry (by decide)
    (by decide)).2 (by decide)).2 (by decide)).1

theorem removeKeyByName_sublist {V : Type} (keys : List (BKey V)) (nm : String) :
    (removeKeyByName keys nm).Sublist keys := by
  rw [removeKeyByName]
  cases keys.findIdx? (fun k => k.name == nm) with
  | none => exact List.Sublist.refl keys
  | some i => exact List.eraseIdx_sublist keys i

theorem overrideStep_sublist {V : Type} (override : Bool) (keys : List (BKey V))
    (e : BuildEntry) : (overrideStep override keys e).Sublist keys := by
  rw [overrideStep]
  cases override with
  | false => exact List.Sublist.refl keys
  | true => exact removeKeyByName_sublist keys e.name

theorem processEntry_zero_preserved {V : Type} [AddCommGroup V] [Module ℚ V]
    (override : Bool) (keys : List (BKey V)) (e : BuildEntry)
    (h : ∀ k ∈ keys, k.value = 0) :
    ∀ k ∈ processEntry override keys e, k.value = 0 := by
  intro k hk
  rw [processEntry] at hk
  have hsub := overrideStep_sublist override keys e
  by_cases h1 : ((overrideStep override keys e).find?
      (fun k => k.name == e.name)).isSome
  · rw [if_pos h1] at hk
    exact h k (hsub.mem hk)
  · rw [if_neg h1] at hk
    by_cases h2 : e.mix.any (fun m => ((overrideStep override keys e).find?
        (fun k => k.name == m.name)).isSome) = true
    · rw [if_pos h2] at hk
      rw [zeroValues] at hk
      obtain ⟨k0, _, rfl⟩ := List.mem_map.mp hk
      rfl
    · rw [if_neg h2] at hk
      exact h k (hsub.mem hk)

theorem processEntry_creates_zero {V : Type} [AddCommGroup V] [Module ℚ V]
    (override : Bool) (keys : List (BKey V)) (e : BuildEntry)
    (h : entryCreates override keys e = true) :
    ∀ k ∈ processEntry override keys e, k.value = 0 := by
  rw [entryCreates, Bool.and_eq_true, Bool.not_eq_eq_eq_not, Bool.not_true] at h
  intro k hk
  rw [processEntry] at hk
  rw [if_neg (by rw [h.1]; exact Bool.false_ne_true), if_pos h.2] at hk
  rw [zeroValues] at hk
  obtain ⟨k0, _, rfl⟩ := List.mem_map.mp hk
  rfl

theorem processEntry_not_creates {V : Type} [AddCommGroup V] [Module ℚ V]
    (override : Bool) (keys : List (BKey V)) (e : BuildEntry)
    (h : entryCreates override keys e = false) :
    processEntry override keys e = overrideStep override keys e := by
  rw [entryCreates] at h
  rw [processEntry]
  by_cases h1 : ((overrideStep override keys e).find?
      (fun k => k.name == e.name)).isSome
  · rw [if_pos h1]
  · rw [if_neg h1]
    have h2 : e.mix.any (fun m => ((overrideStep override keys e).find?
        (fun k => k.name == m.name)).isSome) = false := by
      revert h
      cases hfind : ((overrideStep override keys e).find?
          (fun k => k.name == e.name)).isSome
      · simp
      · exact absurd hfind h1
    rw [h2]
    simp

theorem buildVisit_zero_preserved {V : Type} [AddCommGroup V] [Module ℚ V]
    (override : Bool) :
    ∀ (table : List BuildEntry) (keys : List (BKey V)),
      (∀ k ∈ keys, k.value = 0) →
      ∀ k ∈ buildVisit override table keys, k.value = 0 := by
  intro table
  induction table with
  | nil => intro keys h k hk; exact h k hk
  | cons e es ih =>
    intro keys h
    rw [buildVisit, List.foldl_cons]
    exact ih (processEntry override keys e)
      (processEntry_zero_preserved override keys e h)

theorem buildVisit_characterization {V : Type} [AddCommGroup V] [Module ℚ V]
    (override : Bool) :
    ∀ (table : List BuildEntry) (keys : List (BKey V)),
      (buildCreates override table keys = true →
        ∀ k ∈ buildVisit override table keys, k.value = 0) ∧
      (buildCreates override table keys = false →
        (buildVisit override table keys).Sublist keys ∧
        (override = false → buildVisit override table keys = keys)) := by
  intro table
  induction table with
  | nil =>
    intro keys
    refine ⟨fun h => ?_, fun _ => ⟨List.Sublist.refl keys, fun _ => rfl⟩⟩
    cases h
  | cons e es ih =>
    intro keys
    constructor
    · intro h
      rw [buildVisit, List.foldl_cons]
      cases hc : entryCreates override keys e with
      | true =>
        exact buildVisit_zero_preserved override es (processEntry override keys e)
          (processEntry_creates_zero override keys e hc)
      | false =>
        rw [buildCreates, hc, Bool.false_or] at h
        exact (ih (processEntry override keys e)).1 h
    · intro h
      rw [buildCreates, Bool.or_eq_false_iff] at h
      rw [buildVisit, List.foldl_cons]
      have hpe := processEntry_not_creates override keys e h.1
      have hrec := (ih (processEntry override keys e)).2 h.2
      constructor
      · exact (hrec.1.trans (hpe ▸ overrideStep_sublist override keys e))
      · intro hov
        have : processEntry override keys e = keys := by
          rw [hpe, overrideStep, hov]
          rfl
        rw [this] at hrec ⊢
        exact hrec.2 hov

/-- Claim C10: whenever a build script (`build-visemes-from-arkit.py` with
override disabled, `build-extras-from-arkit.py` with override enabled, or
`build-visemes-from-faceit-phonemes.py` with override disabled) creates at
least one new shape key during a visit of an object, every slider of that
object ends at `0`; when it creates none, the surviving keys are exactly a
sublist of the original keys with all values unchanged, and with override
disabled the keys are completely untouched. -/
theorem C10_build_values {V : Type} [AddCommGroup V] [Module ℚ V]
    (override : Bool) (table : List BuildEntry)
    (_hscript : (table = visemesArkitShapekeys ∧ override = false) ∨
      (table = extrasArkitShapekeys ∧ override = true) ∨
      (table = faceitShapekeys ∧ override = false))
    (keys : List (BKey V)) :
    (buildCreates override table keys = true →
      ∀ k ∈ buildVisit override table keys, k.value = 0) ∧
    (buildCreates override table keys = false →
      (buildVisit override table keys).Sublist keys ∧
      (override = false → buildVisit override table keys = keys)) :=
  buildVisit_characterization override table keys

/-- Witness instantiating `C10_build_values` on the viseme table with a
concrete keys list, discharging every hypothesis. -/
theorem C10_build_values_witness :
    buildCreates false visemesArkitShapekeys c10WitnessKeys = true ∧
    ∀ k ∈ buildVisit false visemesArkitShapekeys c10WitnessKeys, k.value = 0 :=
  ⟨by decide, (C10_build_values false visemesArkitShapekeys (Or.inl ⟨rfl, rfl⟩)
    c10WitnessKeys).1 (by decide)⟩

theorem applyLoop_fst {G : Type} (applyMod : String → G → G) (nVerts : G → Nat)
    (sel : List String) (ck : List (KeyBlock G)) (g0 : G) (vc : Nat) (err : String) :
    ∀ (is : List Nat) (orig : MeshObj G) (tr : List Event),
      (applyLoop applyMod nVerts sel ck g0 vc err is orig tr).1 =
        if ∃ i ∈ is, nVerts (tmpKeyGeo applyMod sel ck g0 i) ≠ vc
        then (false, some err) else (true, none) := by
  intro is
  induction is with
  | nil =>
    intro orig tr
    rw [applyLoop, if_neg (by simp)]
  | cons i rest ih =>
    intro orig tr
    rw [applyLoop]
    by_cases hv : nVerts (tmpKeyGeo applyMod sel ck g0 i) ≠ vc
    · rw [if_pos hv, if_pos ⟨i, List.mem_cons_self i rest, hv⟩]
    · rw [if_neg hv, ih]
      by_cases hrest : ∃ j ∈ rest, nVerts (tmpKeyGeo applyMod sel ck g0 j) ≠ vc
      · obtain ⟨j, hj, hne⟩ := hrest
        rw [if_pos ⟨j, hj, hne⟩, if_pos ⟨j, List.mem_cons_of_mem i hj, hne⟩]
      · rw [if_neg hrest, if_neg ?_]
        rintro ⟨j, hj, hne⟩
        rcases List.mem_cons.mp hj with rfl | hj2
        · exact hv hne
        · exact hrest ⟨j, hj2, hne⟩

theorem applyLoop_success {G : Type} (applyMod : String → G → G) (nVerts : G → Nat)
    (sel : List String) (ck : List (KeyBlock G)) (g0 : G) (vc : Nat) (err : String) :
    ∀ (is : List Nat) (orig : MeshObj G) (tr : List Event)
      (e : Option String) (o : MeshObj G) (tr' : List Event),
      applyLoop applyMod nVerts sel ck g0 vc err is orig tr = ((true, e), o, tr') →
      o = ⟨orig.keys ++ is.map (fun i =>
          freshKey "" (tmpKeyGeo applyMod sel ck g0 i)), orig.geo, orig.modifiers⟩ ∧
      tr' = tr ++ is.flatMap (perKeyEvents sel) := by
  intro is
  induction is with
  | nil =>
    intro orig tr e o tr' h
    rw [applyLoop] at h
    injection h with h1 h23
    injection h23 with h2 h3
    refine ⟨?_, ?_⟩
    · rw [← h2]
      cases orig
      simp
    · rw [← h3]
      simp
  | cons i rest ih =>
    intro orig tr e o tr' h
    rw [applyLoop] at h
    by_cases hv : nVerts (tmpKeyGeo applyMod sel ck g0 i) ≠ vc
    · rw [if_pos hv] at h
      cases h
    · rw [if_neg hv] at h
      obtain ⟨ho, htr⟩ := ih _ _ _ _ _ h
      constructor
      · rw [ho]
        simp
      · rw [htr]
        simp [List.append_assoc]

theorem apply_modifiers_fst_char {G : Type} (applyMod : String → G → G)
    (nVerts : G → Nat) (obj : MeshObj G) (sel : List String) (dis : Bool) :
    (apply_modifiers applyMod nVerts obj sel dis).1 =
      if (List.range' 1 (obj.keys.length - 1)).any (fun i =>
          nVerts (tmpKeyGeo applyMod sel obj.keys (basisGeoOf obj) i) !=
            nVerts (applyModList applyMod sel (basisGeoOf obj)))
      then (false, some (errorInfoText (amMirror obj sel)))
      else (true, none) := by
  have hiff : ((List.range' 1 (obj.keys.length - 1)).any (fun i =>
      nVerts (tmpKeyGeo applyMod sel obj.keys (basisGeoOf obj) i) !=
        nVerts (applyModList applyMod sel (basisGeoOf obj))) = true) ↔
      (∃ i ∈ List.range' 1 (obj.keys.length - 1),
        nVerts (tmpKeyGeo applyMod sel obj.keys (basisGeoOf obj) i) ≠
          nVerts (applyModList applyMod sel (basisGeoOf obj))) := by
    rw [List.any_eq_true]
    constructor
    · rintro ⟨i, hi, hne⟩
      exact ⟨i, hi, by simpa using hne⟩
    · rintro ⟨i, hi, hne⟩
      exact ⟨i, hi, by simpa using hne⟩
  rw [apply_modifiers]
  by_cases hn : obj.keys.length = 0
  · rw [if_pos hn]
    simp [hn]
  · rw [if_neg hn]
    simp only [amLoop, amVertCount]
    rw [applyLoop_fst]
    by_cases hex : ∃ i ∈ List.range' 1 (obj.keys.length - 1),
        nVerts (tmpKeyGeo applyMod sel obj.keys (basisGeoOf obj) i) ≠
          nVerts (applyModList applyMod sel (basisGeoOf obj))
    · rw [if_pos hex, if_pos (hiff.mpr hex)]
      simp
      rw [applyLoop_fst, if_pos hex]
    · rw [if_neg hex, if_neg (fun hb => hex (hiff.mp hb))]
      simp

/-- C2: `apply_modifiers` returns `(False, errorInfo)` exactly when some
non-basis shape key (index 1 to shapesCount-1) yields, on its duplicate
after the selected modifiers, a vertex count different from the base mesh
after the same modifiers; in every other case, including an object with no
shape keys (where the modifiers are simply applied), it returns
`(True, None)`. -/
theorem C2_apply_modifiers_result {G : Type} (applyMod : String → G → G)
    (nVerts : G → Nat) (obj : MeshObj G) (sel : List String) (dis : Bool) :
    (apply_modifiers applyMod nVerts obj sel dis).1 =
      if (List.range' 1 (obj.keys.length - 1)).any (fun i =>
          nVerts (tmpKeyGeo applyMod sel obj.keys (basisGeoOf obj) i) !=
            nVerts (applyModList applyMod sel (basisGeoOf obj)))
      then (false, some (errorInfoText (amMirror obj sel)))
      else (true, none) :=
  apply_modifiers_fst_char applyMod nVerts obj sel dis

theorem apply_modifiers_success_eq {G : Type} (applyMod : String → G → G)
    (nVerts : G → Nat) (obj : MeshObj G) (sel : List String) (dis : Bool)
    (hn : obj.keys.length ≠ 0)
    (hsucc : (apply_modifiers applyMod nVerts obj sel dis).1 = (true, none)) :
    (apply_modifiers applyMod nVerts obj sel dis).2.1.keys =
      restoreProps (obj.keys.map (savedProps obj.keys))
        (freshKey "Basis" (applyModList applyMod sel (basisGeoOf obj)) ::
          (List.range' 1 (obj.keys.length - 1)).map (fun i =>
            freshKey "" (tmpKeyGeo applyMod sel obj.keys (basisGeoOf obj) i))) ∧
    (apply_modifiers applyMod nVerts obj sel dis).2.2 =
      [Event.duplicate 1] ++ sel.map (Event.applyModifier 0) ++
        (List.range' 1 (obj.keys.length - 1)).flatMap (perKeyEvents sel) ++
        [Event.deleteObject 1, Event.removeMesh 1] := by
  have hfst := apply_modifiers_fst_char applyMod nVerts obj sel dis
  rw [hsucc] at hfst
  have hany : (List.range' 1 (obj.keys.length - 1)).any (fun i =>
      nVerts (tmpKeyGeo applyMod sel obj.keys (basisGeoOf obj) i) !=
        nVerts (applyModList applyMod sel (basisGeoOf obj))) = false := by
    by_contra hc
    rw [if_pos (by revert hc; cases h : (List.range' 1 (obj.keys.length - 1)).any _
        <;> simp)] at hfst
    cases hfst
  have hnomis : ∀ i ∈ List.range' 1 (obj.keys.length - 1),
      ¬ nVerts (tmpKeyGeo applyMod sel obj.keys (basisGeoOf obj) i) ≠
        nVerts (applyModList applyMod sel (basisGeoOf obj)) := by
    intro i hi
    have := List.any_eq_false.mp hany i hi
    simpa using this
  have hloopfst : (amLoop applyMod nVerts obj sel dis).1 = (true, none) := by
    rw [amLoop, applyLoop_fst]
    rw [if_neg ?_]
    rintro ⟨i, hi, hne⟩
    exact hnomis i hi (by simpa [amVertCount] using hne)
  have hr : amLoop applyMod nVerts obj sel dis =
      ((true, none), (amLoop applyMod nVerts obj sel dis).2.1,
        (amLoop applyMod nVerts obj sel dis).2.2) := by
    rw [← hloopfst]
  have happly := applyLoop_success applyMod nVerts sel obj.keys (basisGeoOf obj)
    (amVertCount applyMod nVerts obj sel) (errorInfoText (amMirror obj sel))
    (List.range' 1 (obj.keys.length - 1))
    (amOrig1 applyMod obj sel dis)
    ([Event.duplicate 1] ++ sel.map (Event.applyModifier 0)) none
    (amLoop applyMod nVerts obj sel dis).2.1
    (amLoop applyMod nVerts obj sel dis).2.2
    (by rw [← amLoop]; exact hr)
  obtain ⟨ho, htr⟩ := happly
  have hkeys1 : (amLoop applyMod nVerts obj sel dis).2.1.keys =
      freshKey "Basis" (applyModList applyMod sel (basisGeoOf obj)) ::
        (List.range' 1 (obj.keys.length - 1)).map (fun i =>
          freshKey "" (tmpKeyGeo applyMod sel obj.keys (basisGeoOf obj) i)) := by
    rw [ho]
    simp [amOrig1, amVertCount]
  constructor
  · rw [apply_modifiers, if_neg hn]
    simp only [hloopfst, hkeys1]
    rw [if_neg (by simp)]
  · rw [apply_modifiers, if_neg hn]
    simp only [hloopfst]
    rw [if_neg (by simp), htr]

/-- C3: on a successful run over an object with at least one shape key,
`apply_modifiers` emits, for each non-basis key index 1..shapesCount-1 in
order, the events of duplicating a copy of the original, transferring that
key onto the duplicate, applying each selected modifier to the duplicate,
joining the result back onto the original as a new shape key, and deleting
the duplicate object and its mesh; the original object (id 0) is never
deleted. -/
theorem C3_apply_modifiers_process {G : Type} (applyMod : String → G → G)
    (nVerts : G → Nat) (obj : MeshObj G) (sel : List String) (dis : Bool)
    (hkeys : obj.keys ≠ [])
    (hsucc : (apply_modifiers applyMod nVerts obj sel dis).1 = (true, none)) :
    (apply_modifiers applyMod nVerts obj sel dis).2.2 =
      [Event.duplicate 1] ++ sel.map (Event.applyModifier 0) ++
        (List.range' 1 (obj.keys.length - 1)).flatMap (perKeyEvents sel) ++
        [Event.deleteObject 1, Event.removeMesh 1] ∧
    Event.deleteObject 0 ∉ (apply_modifiers applyMod nVerts obj sel dis).2.2 := by
  have hn : obj.keys.length ≠ 0 := fun h => hkeys (List.eq_nil_of_length_eq_zero h)
  have h := (apply_modifiers_success_eq applyMod nVerts obj sel dis hn hsucc).2
  refine ⟨h, ?_⟩
  rw [h]
  simp [perKeyEvents]

theorem restoreNames_names {G : Type} :
    ∀ (ks : List (KeyBlock G)) (props : List SavedProps),
      props.length = ks.length →
      (restoreNames props ks).map (fun k => k.name) = props.map (fun p => p.name) := by
  intro ks
  induction ks with
  | nil =>
    intro props hlen
    have : props = [] := List.eq_nil_of_length_eq_zero hlen
    subst this
    rfl
  | cons k ks ih =>
    intro props hlen
    cases props with
    | nil => cases hlen
    | cons p ps =>
      simp only [restoreNames, List.zipWith_cons_cons, List.map_cons]
      exact congrArg (fun l => p.name :: l) (ih ps (by simpa using hlen))

theorem restoreProps_length {G : Type} (props : List SavedProps)
    (ks : List (KeyBlock G)) (hlen : props.length = ks.length) :
    (restoreProps props ks).length = ks.length := by
  rw [restoreProps, List.length_zipWith, restoreNames, List.length_zipWith]
  omega

theorem restoreProps_getElem {G : Type} (props : List SavedProps)
    (ks : List (KeyBlock G)) (i : Nat) (p : SavedProps)
    (hp : props[i]? = some p) (hi : i < ks.length) :
    ∃ k, ks[i]? = some k ∧
      (restoreProps props ks)[i]? = some ⟨p.name, p.mute, p.interpolation,
        (match (restoreNames props ks).findIdx?
            (fun kb => kb.name == p.relative_key) with
          | some j => j
          | none => k.relative_key),
        p.slider_max, p.slider_min, p.value, p.vertex_group, k.geo⟩ := by
  have hk : ks[i]? = some ks[i] := List.getElem?_eq_some_iff.mpr ⟨hi, rfl⟩
  refine ⟨ks[i], hk, ?_⟩
  have hnamed : (restoreNames props ks)[i]? =
      some {ks[i] with name := p.name} := by
    rw [restoreNames, List.getElem?_zipWith, hk, hp]
  rw [restoreProps]
  rw [List.getElem?_zipWith, hnamed, hp]

/-- C1: when an object with shape keys runs through `apply_modifiers` with
result `(True, None)`, it has the same number of shape keys afterwards, and
the key at each position keeps its name, value, mute flag, interpolation,
slider_min, slider_max, vertex_group, and the name of its relative key. -/
theorem C1_apply_modifiers_preserves {G : Type} (applyMod : String → G → G)
    (nVerts : G → Nat) (obj : MeshObj G) (sel : List String) (dis : Bool)
    (hkeys : obj.keys ≠ [])
    (hwf : ∀ k ∈ obj.keys, k.relative_key < obj.keys.length)
    (hsucc : (apply_modifiers applyMod nVerts obj sel dis).1 = (true, none)) :
    (apply_modifiers applyMod nVerts obj sel dis).2.1.keys.length
      = obj.keys.length ∧
    ∀ (i : Nat) (k : KeyBlock G), obj.keys[i]? = some k →
      ∃ k', (apply_modifiers applyMod nVerts obj sel dis).2.1.keys[i]? = some k' ∧
        k'.name = k.name ∧ k'.value = k.value ∧ k'.mute = k.mute ∧
        k'.interpolation = k.interpolation ∧ k'.slider_min = k.slider_min ∧
        k'.slider_max = k.slider_max ∧ k'.vertex_group = k.vertex_group ∧
        ((apply_modifiers applyMod nVerts obj sel dis).2.1.keys[k'.relative_key]?).map
            (fun kb => kb.name) =
          (obj.keys[k.relative_key]?).map (fun kb => kb.name) := by
  have hn : obj.keys.length ≠ 0 := fun h => hkeys (List.eq_nil_of_length_eq_zero h)
  have hres := (apply_modifiers_success_eq applyMod nVerts obj sel dis hn hsucc).1
  have hkslen : (freshKey "Basis" (applyModList applyMod sel (basisGeoOf obj)) ::
      (List.range' 1 (obj.keys.length - 1)).map (fun i =>
        freshKey "" (tmpKeyGeo applyMod sel obj.keys (basisGeoOf obj) i))).length
      = obj.keys.length := by
    simp [List.length_range']
    omega
  have hplen : (obj.keys.map (savedProps obj.keys)).length = obj.keys.length :=
    List.length_map obj.keys _
  have hlen : (obj.keys.map (savedProps obj.keys)).length =
      (freshKey "Basis" (applyModList applyMod sel (basisGeoOf obj)) ::
        (List.range' 1 (obj.keys.length - 1)).map (fun i =>
          freshKey "" (tmpKeyGeo applyMod sel obj.keys (basisGeoOf obj) i))).length := by
    rw [hplen, hkslen]
  have hnamed_len : (restoreNames (obj.keys.map (savedProps obj.keys))
      (freshKey "Basis" (applyModList applyMod sel (basisGeoOf obj)) ::
        (List.range' 1 (obj.keys.length - 1)).map (fun i =>
          freshKey "" (tmpKeyGeo applyMod sel obj.keys (basisGeoOf obj) i)))).length
      = obj.keys.length := by
    rw [restoreNames, List.length_zipWith]
    omega
  have hprops_names : (obj.keys.map (savedProps obj.keys)).map (fun p => p.name)
      = obj.keys.map (fun k => k.name) := by
    rw [List.map_map]
    rfl
  have hnamed_names := restoreNames_names
    (freshKey "Basis" (applyModList applyMod sel (basisGeoOf obj)) ::
      (List.range' 1 (obj.keys.length - 1)).map (fun i =>
        freshKey "" (tmpKeyGeo applyMod sel obj.keys (basisGeoOf obj) i)))
    (obj.keys.map (savedProps obj.keys)) hlen
  constructor
  · rw [hres, restoreProps_length _ _ hlen, hkslen]
  · intro i k hk
    have hilt : i < obj.keys.length := by
      by_contra hc
      rw [List.getElem?_eq_none (by omega)] at hk
      cases hk
    have hp : (obj.keys.map (savedProps obj.keys))[i]? =
        some (savedProps obj.keys k) := by
      rw [List.getElem?_map, hk]
      rfl
    obtain ⟨k0, hk0, hresi⟩ := restoreProps_getElem (obj.keys.map (savedProps obj.keys))
      _ i (savedProps obj.keys k) hp (by rw [hkslen]; exact hilt)
    refine ⟨_, by rw [hres]; exact hresi, ?_, ?_, ?_, ?_, ?_, ?_, ?_, ?_⟩
    · rfl
    · rfl
    · rfl
    · rfl
    · rfl
    · rfl
    · rfl
    have hrellt : k.relative_key < obj.keys.length := hwf k (List.getElem?_mem hk)
    have hkrel : obj.keys[k.relative_key]? = some obj.keys[k.relative_key] :=
      List.getElem?_eq_some_iff.mpr ⟨hrellt, rfl⟩
    have hrelname : (savedProps obj.keys k).relative_key
        = obj.keys[k.relative_key].name := by
      show ((obj.keys[k.relative_key]?).map (fun kb => kb.name)).getD ""
        = obj.keys[k.relative_key].name
      rw [hkrel]
      rfl
    have hexists : ∃ x ∈ restoreNames (obj.keys.map (savedProps obj.keys))
        (freshKey "Basis" (applyModList applyMod sel (basisGeoOf obj)) ::
          (List.range' 1 (obj.keys.length - 1)).map (fun i =>
            freshKey "" (tmpKeyGeo applyMod sel obj.keys (basisGeoOf obj) i))),
        (x.name == (savedProps obj.keys k).relative_key) = true := by
      have hmemname : obj.keys[k.relative_key].name ∈
          (restoreNames (obj.keys.map (savedProps obj.keys))
            (freshKey "Basis" (applyModList applyMod sel (basisGeoOf obj)) ::
              (List.range' 1 (obj.keys.length - 1)).map (fun i =>
                freshKey "" (tmpKeyGeo applyMod sel obj.keys (basisGeoOf obj) i)))).map
            (fun kb => kb.name) := by
        rw [hnamed_names, hprops_names]
        exact List.mem_map_of_mem _ (List.getElem?_mem hkrel)
      obtain ⟨x, hx, hxname⟩ := List.mem_map.mp hmemname
      exact ⟨x, hx, by simp [hxname, hrelname]⟩
    cases hfind : (restoreNames (obj.keys.map (savedProps obj.keys))
        (freshKey "Basis" (applyModList applyMod sel (basisGeoOf obj)) ::
          (List.range' 1 (obj.keys.length - 1)).map (fun i =>
            freshKey "" (tmpKeyGeo applyMod sel obj.keys (basisGeoOf obj) i)))).findIdx?
        (fun kb => kb.name == (savedProps obj.keys k).relative_key) with
    | none =>
      obtain ⟨x, hx, hxname⟩ := hexists
      have := List.findIdx?_eq_none_iff.mp hfind x hx
      rw [hxname] at this
      cases this
    | some j =>
      obtain ⟨hjlt, ⟨x, hxj, hxname⟩, _⟩ := findIdx?_some_char _ j hfind
      have hjlt2 : j < obj.keys.length := by
        rw [hnamed_len] at hjlt
        exact hjlt
      have hobjj : obj.keys[j]? = some obj.keys[j] :=
        List.getElem?_eq_some_iff.mpr ⟨hjlt2, rfl⟩
      have hpj : (obj.keys.map (savedProps obj.keys))[j]? =
          some (savedProps obj.keys obj.keys[j]) := by
        rw [List.getElem?_map, hobjj]
        rfl
      obtain ⟨kj, hkj, hresj⟩ := restoreProps_getElem
        (obj.keys.map (savedProps obj.keys)) _ j _ hpj (by rw [hkslen]; exact hjlt2)
      have hxn : x.name = obj.keys[j].name := by
        have h1 := congrArg (fun l => l[j]?) hnamed_names
        simp only [List.getElem?_map, hxj, hobjj] at h1
        simpa using h1
      have hxrel : x.name = (savedProps obj.keys k).relative_key := by
        simpa using hxname
      have hgoal : ((restoreProps (obj.keys.map (savedProps obj.keys))
          (freshKey "Basis" (applyModList applyMod sel (basisGeoOf obj)) ::
            (List.range' 1 (obj.keys.length - 1)).map (fun i =>
              freshKey "" (tmpKeyGeo applyMod sel obj.keys (basisGeoOf obj) i))))[j]?).map
            (fun kb => kb.name) =
          (obj.keys[k.relative_key]?).map (fun kb => kb.name) := by
        rw [hresj, hkrel]
        have hnn : obj.keys[j].name = obj.keys[k.relative_key].name := by
          rw [← hxn, hxrel, hrelname]
        simpa using hnn
      rw [hres]
      exact hgoal

/-- Witness instantiating `C1_apply_modifiers_preserves` on a concrete
object and a successful run, discharging every hypothesis. -/
theorem C1_apply_modifiers_preserves_witness :
    (apply_modifiers (fun (_ : String) (g : Unit) => g) (fun _ => 7)
      c1Obj ["Delete"] true).2.1.keys.length = c1Obj.keys.length :=
  (C1_apply_modifiers_preserves (fun _ g => g) (fun _ => 7) c1Obj ["Delete"] true
    (by decide) (by decide) (by decide)).1

/-- Witness instantiating `C3_apply_modifiers_process` on the same concrete
object, discharging every hypothesis. -/
theorem C3_apply_modifiers_process_witness :
    Event.deleteObject 0 ∉ (apply_modifiers (fun (_ : String) (g : Unit) => g)
      (fun _ => 7) c1Obj ["Delete"] true).2.2 :=
  (C3_apply_modifiers_process (fun _ g => g) (fun _ => 7) c1Obj ["Delete"] true
    (by decide) (by decide)).2

theorem armNames_reset (arm : ArmatureObj) : armNames (reset_pose arm) = armNames arm := by
  simp [armNames, reset_pose, List.map_map]

theorem armNames_set (arm : ArmatureObj) (b ax : String) (d : ℚ) :
    armNames (set_bone_rotation arm b ax d) = armNames arm := by
  simp only [armNames, set_bone_rotation, List.map_map]
  apply List.map_congr_left
  intro x _
  by_cases hx : x.name = b <;> simp [hx]

theorem reset_pose_eq_of_names {a b : ArmatureObj} (h : armNames a = armNames b) :
    reset_pose a = reset_pose b := by
  have key : ∀ c : ArmatureObj, reset_pose c =
      ⟨(armNames c).map (fun nm => ⟨nm, (0, 0, 0), "XYZ", (0, 0, 0), (1, 1, 1)⟩)⟩ := by
    intro c
    simp [reset_pose, armNames, List.map_map]
  rw [key a, key b, h]

theorem remove_shape_key_modifiers {V : Type} (mesh : EyeMesh V) (nm : String) :
    (remove_shape_key mesh nm).modifiers = mesh.modifiers := by
  rw [remove_shape_key]
  by_cases h : mesh.keys.isEmpty
  · rw [if_pos h]
  · rw [if_neg h]
    cases mesh.keys.findIdx? (fun p => p.1 == nm) <;> rfl

theorem hasVisArm_remove {V : Type} (mesh : EyeMesh V) (nm : String) :
    hasVisArm (remove_shape_key mesh nm) = hasVisArm mesh := by
  rw [hasVisArm, remove_shape_key_modifiers, hasVisArm]

theorem ensure_basis_modifiers {V : Type} (mesh : EyeMesh V) :
    (ensure_basis mesh).modifiers = mesh.modifiers := by
  rw [ensure_basis]
  by_cases h : mesh.keys.isEmpty
  · rw [if_pos h]
  · rw [if_neg h]
    by_cases h2 : (mesh.keys.find? (fun p => p.1 == "Basis")).isSome
    · rw [if_pos h2]
    · rw [if_neg h2]

theorem hasVisArm_ensure {V : Type} (mesh : EyeMesh V) :
    hasVisArm (ensure_basis mesh) = hasVisArm mesh := by
  rw [hasVisArm, ensure_basis_modifiers, hasVisArm]

theorem mem_eraseIdx_of_ne {α : Type} :
    ∀ (l : List α) (i : Nat) (p : α), p ∈ l → l[i]? ≠ some p → p ∈ l.eraseIdx i := by
  intro l
  induction l with
  | nil => intro i p hp _; cases hp
  | cons x xs ih =>
    intro i p hp hne
    match i with
    | 0 =>
      rcases List.mem_cons.mp hp with rfl | hmem
      · exact (hne (by simp)).elim
      · simpa [List.eraseIdx] using hmem
    | j + 1 =>
      rcases List.mem_cons.mp hp with rfl | hmem
      · simp [List.eraseIdx]
      · exact List.mem_cons_of_mem x (ih j p hmem (by simpa using hne))

theorem remove_shape_key_mem {V : Type} (mesh : EyeMesh V) (nm : String)
    (p : String × V) (hp : p ∈ mesh.keys) (hne : p.1 ≠ nm) :
    p ∈ (remove_shape_key mesh nm).keys := by
  rw [remove_shape_key]
  by_cases h : mesh.keys.isEmpty
  · rw [if_pos h]
    exact hp
  · rw [if_neg h]
    cases hfind : mesh.keys.findIdx? (fun q => q.1 == nm) with
    | none => exact hp
    | some i =>
      obtain ⟨_, ⟨q, hq, hqname⟩, _⟩ := findIdx?_some_char _ i hfind
      apply mem_eraseIdx_of_ne mesh.keys i p hp
      rw [hq]
      intro he
      have : q = p := by simpa using he
      subst this
      exact hne (by simpa using hqname)

theorem bakeEyeLoop_spec {V : Type} (deform : List PoseBone → V) (cfg : EyeConfig) :
    ∀ (rots : List (String × ℚ)) (arm : ArmatureObj) (mesh : EyeMesh V),
      hasVisArm mesh = true →
      ∃ arm' mesh', bakeEyeLoop deform cfg rots arm mesh = .ok (arm', mesh') ∧
        armNames arm' = armNames arm ∧
        mesh'.modifiers = mesh.modifiers ∧
        (∀ p ∈ mesh.keys, (∀ r ∈ rots, p.1 ≠ "eyeLook" ++ r.1 ++ cfg.side) →
          p ∈ mesh'.keys) ∧
        ((rots.map (fun r => "eyeLook" ++ r.1 ++ cfg.side)).Nodup →
          ∀ r ∈ rots, ("eyeLook" ++ r.1 ++ cfg.side,
            deform (set_bone_rotation (reset_pose arm) cfg.bone (axisFor r.1) r.2).pose)
            ∈ mesh'.keys) := by
  intro rots
  induction rots with
  | nil =>
    intro arm mesh hvis
    exact ⟨arm, mesh, rfl, rfl, rfl, fun p hp _ => hp, fun _ r hr => absurd hr (by simp)⟩
  | cons rot rest ih =>
    intro arm mesh hvis
    obtain ⟨dir, angle⟩ := rot
    have hvis1 : hasVisArm (remove_shape_key mesh ("eyeLook" ++ dir ++ cfg.side))
        = true := by rw [hasVisArm_remove]; exact hvis
    have hsave : save_armature_as_shape_key deform
        (set_bone_rotation (reset_pose arm) cfg.bone (axisFor dir) angle)
        (remove_shape_key mesh ("eyeLook" ++ dir ++ cfg.side))
        ("eyeLook" ++ dir ++ cfg.side) =
        .ok ⟨(remove_shape_key mesh ("eyeLook" ++ dir ++ cfg.side)).meshName,
          (remove_shape_key mesh ("eyeLook" ++ dir ++ cfg.side)).baseGeo,
          (remove_shape_key mesh ("eyeLook" ++ dir ++ cfg.side)).keys ++
            [("eyeLook" ++ dir ++ cfg.side,
              deform (set_bone_rotation (reset_pose arm) cfg.bone (axisFor dir) angle).pose)],
          (remove_shape_key mesh ("eyeLook" ++ dir ++ cfg.side)).modifiers⟩ := by
      rw [save_armature_as_shape_key, if_pos hvis1]
    obtain ⟨arm', mesh', hrun, hnames, hmods, hpres, hmem⟩ := ih
      (set_bone_rotation (reset_pose arm) cfg.bone (axisFor dir) angle)
      ⟨(remove_shape_key mesh ("eyeLook" ++ dir ++ cfg.side)).meshName,
        (remove_shape_key mesh ("eyeLook" ++ dir ++ cfg.side)).baseGeo,
        (remove_shape_key mesh ("eyeLook" ++ dir ++ cfg.side)).keys ++
          [("eyeLook" ++ dir ++ cfg.side,
            deform (set_bone_rotation (reset_pose arm) cfg.bone (axisFor dir) angle).pose)],
        (remove_shape_key mesh ("eyeLook" ++ dir ++ cfg.side)).modifiers⟩
      (by rw [hasVisArm]; simp only []; rw [← hasVisArm]; exact hvis1)
    have hnames2 : armNames arm' = armNames arm := by
      rw [hnames, armNames_set, armNames_reset]
    refine ⟨arm', mesh', ?_, hnames2, ?_, ?_, ?_⟩
    · rw [bakeEyeLoop]
      rw [hsave]
      exact hrun
    · rw [hmods]
      simp only []
      rw [remove_shape_key_modifiers]
    · intro p hp hnot
      apply hpres
      · apply List.mem_append_left
        exact remove_shape_key_mem mesh _ p hp
          (hnot (dir, angle) (List.mem_cons_self _ _))
      · intro r hr
        exact hnot r (List.mem_cons_of_mem _ hr)
    · intro hnodup r hr
      rw [List.map_cons] at hnodup
      have hnodup2 := List.nodup_cons.mp hnodup
      rcases List.mem_cons.mp hr with rfl | hr2
      · apply hpres
        · apply List.mem_append_right
          simp
        · intro r2 hr2 he
          have h3 : ("eyeLook" ++ r2.1 ++ cfg.side) ∈
              rest.map (fun r => "eyeLook" ++ r.1 ++ cfg.side) :=
            List.mem_map_of_mem _ hr2
          rw [← he] at h3
          exact hnodup2.1 h3
      · have := hmem hnodup2.2 r hr2
        have hre : reset_pose (set_bone_rotation (reset_pose arm) cfg.bone
            (axisFor dir) angle) = reset_pose arm := by
          apply reset_pose_eq_of_names
          rw [armNames_set, armNames_reset]
        rw [hre] at this
        exact this

theorem bakeEyeLoop_err {V : Type} (deform : List PoseBone → V) (cfg : EyeConfig)
    (rots : List (String × ℚ)) (arm : ArmatureObj) (mesh : EyeMesh V)
    (hne : rots ≠ []) (hvis : hasVisArm mesh = false) :
    ∃ e, bakeEyeLoop deform cfg rots arm mesh = .error e := by
  cases rots with
  | nil => exact absurd rfl hne
  | cons rot rest =>
    obtain ⟨dir, angle⟩ := rot
    have hvis1 : hasVisArm (remove_shape_key mesh ("eyeLook" ++ dir ++ cfg.side))
        = false := by rw [hasVisArm_remove]; exact hvis
    refine ⟨"No active Armature modifier on " ++
      (remove_shape_key mesh ("eyeLook" ++ dir ++ cfg.side)).meshName, ?_⟩
    rw [bakeEyeLoop]
    rw [save_armature_as_shape_key, if_neg (by rw [hvis1]; exact Bool.false_ne_true)]

theorem bake_eye_spec_ok {V : Type} (deform : List PoseBone → V)
    (arm : ArmatureObj) (mesh : EyeMesh V) (cfg : EyeConfig)
    (hvis : hasVisArm mesh = true)
    (hnodup : (cfg.rotations.map (fun r => "eyeLook" ++ r.1 ++ cfg.side)).Nodup) :
    ∃ mesh', bake_eye deform arm mesh cfg = .ok (reset_pose arm, mesh') ∧
      ∀ r ∈ cfg.rotations, ("eyeLook" ++ r.1 ++ cfg.side,
        deform (set_bone_rotation (reset_pose arm) cfg.bone (axisFor r.1) r.2).pose)
        ∈ mesh'.keys := by
  obtain ⟨arm', mesh', hrun, hnames, _, _, hmem⟩ :=
    bakeEyeLoop_spec deform cfg cfg.rotations arm (ensure_basis mesh)
      (by rw [hasVisArm_ensure]; exact hvis)
  refine ⟨mesh', ?_, hmem hnodup⟩
  rw [bake_eye, hrun]
  exact congrArg (fun a =>
    (Except.ok (a, mesh') : Except String (ArmatureObj × EyeMesh V)))
    (reset_pose_eq_of_names hnames)

theorem bake_eye_err {V : Type} (deform : List PoseBone → V)
    (arm : ArmatureObj) (mesh : EyeMesh V) (cfg : EyeConfig)
    (hne : cfg.rotations ≠ []) (hvis : hasVisArm mesh = false) :
    ∃ e, bake_eye deform arm mesh cfg = .error e := by
  obtain ⟨e, he⟩ := bakeEyeLoop_err deform cfg cfg.rotations arm (ensure_basis mesh)
    hne (by rw [hasVisArm_ensure]; exact hvis)
  exact ⟨e, by rw [bake_eye, he]⟩

/-- C6: running `build-avatarsdk-eyes` succeeds exactly when both eyeball
meshes carry a visible Armature modifier (otherwise a RuntimeError is
raised), and on success each eye mesh gains the four shape keys
`eyeLookUp/Down/In/Out<Side>`, each holding the armature deformation
obtained by resetting every pose bone and rotating only that eye bone by
the configured angle about the X axis (Up/Down) or the Y axis (In/Out);
after the last bake every pose bone is reset to zero location, zero
rotation and unit scale. -/
theorem C6_build_avatarsdk_eyes {V : Type} (deformL deformR : List PoseBone → V)
    (arm : ArmatureObj) (meshL meshR : EyeMesh V) :
    ((∃ res, build_eyes deformL deformR arm meshL meshR = .ok res) ↔
      hasVisArm meshL = true ∧ hasVisArm meshR = true) ∧
    (∀ arm2 mL mR, build_eyes deformL deformR arm meshL meshR = .ok (arm2, mL, mR) →
      arm2 = reset_pose arm ∧
      (∀ r ∈ LEFT.rotations, ("eyeLook" ++ r.1 ++ "Left",
        deformL (set_bone_rotation (reset_pose arm) "LeftEye" (axisFor r.1) r.2).pose)
        ∈ mL.keys) ∧
      (∀ r ∈ RIGHT.rotations, ("eyeLook" ++ r.1 ++ "Right",
        deformR (set_bone_rotation (reset_pose arm) "RightEye" (axisFor r.1) r.2).pose)
        ∈ mR.keys)) := by
  by_cases hL : hasVisArm meshL = true
  · by_cases hR : hasVisArm meshR = true
    · obtain ⟨mL2, hokL, hmemL⟩ := bake_eye_spec_ok deformL arm meshL LEFT hL (by decide)
      obtain ⟨mR2, hokR, hmemR⟩ := bake_eye_spec_ok deformR (reset_pose arm) meshR
        RIGHT hR (by decide)
      have hRR : reset_pose (reset_pose arm) = reset_pose arm :=
        reset_pose_eq_of_names (armNames_reset arm)
      have hbuild : build_eyes deformL deformR arm meshL meshR =
          .ok (reset_pose arm, mL2, mR2) := by
        rw [build_eyes, hokL]
        show (match bake_eye deformR (reset_pose arm) meshR RIGHT with
          | .error e => (.error e : Except String (ArmatureObj × EyeMesh V × EyeMesh V))
          | .ok (arm2, meshR2) => .ok (arm2, mL2, meshR2)) = _
        rw [hokR, hRR]
      constructor
      · exact ⟨fun _ => ⟨hL, hR⟩, fun _ => ⟨_, hbuild⟩⟩
      · intro arm2 mL mR h
        rw [hbuild] at h
        injection h with h1
        injection h1 with ha hml
        injection hml with hml hmr
        subst ha
        subst hml
        subst hmr
        refine ⟨rfl, hmemL, ?_⟩
        intro r hr
        have := hmemR r hr
        rw [hRR] at this
        exact this
    · have hRf : hasVisArm meshR = false := by
        cases h : hasVisArm meshR
        · rfl
        · exact absurd h hR
      obtain ⟨mL2, hokL, _⟩ := bake_eye_spec_ok deformL arm meshL LEFT hL (by decide)
      obtain ⟨e, heR⟩ := bake_eye_err deformR (reset_pose arm) meshR RIGHT
        (by decide) hRf
      have hbuild : build_eyes deformL deformR arm meshL meshR = .error e := by
        rw [build_eyes, hokL]
        show (match bake_eye deformR (reset_pose arm) meshR RIGHT with
          | .error e => (.error e : Except String (ArmatureObj × EyeMesh V × EyeMesh V))
          | .ok (arm2, meshR2) => .ok (arm2, mL2, meshR2)) = _
        rw [heR]
      constructor
      · constructor
        · rintro ⟨res, hres⟩
          rw [hbuild] at hres
          cases hres
        · rintro ⟨_, h2⟩
          exact absurd h2 hR
      · intro arm2 mL mR h
        rw [hbuild] at h
        cases h
  · have hLf : hasVisArm meshL = false := by
      cases h : hasVisArm meshL
      · rfl
      · exact absurd h hL
    obtain ⟨e, heL⟩ := bake_eye_err deformL arm meshL LEFT (by decide) hLf
    have hbuild : build_eyes deformL deformR arm meshL meshR = .error e := by
      rw [build_eyes, heL]
    constructor
    · constructor
      · rintro ⟨res, hres⟩
        rw [hbuild] at hres
        cases hres
      · rintro ⟨h1, _⟩
        exact absurd h1 hL
    · intro arm2 mL mR h
      rw [hbuild] at h
      cases h

/-- Witness instantiating `C6_build_avatarsdk_eyes` on concrete data,
discharging the hypotheses of both directions. -/
theorem C6_build_avatarsdk_eyes_witness :
    (∃ res, build_eyes (fun (_ : List PoseBone) => ()) (fun _ => ())
      c6Arm c6MeshL c6MeshR = .ok res) ∧
    (∃ arm2 mL mR, build_eyes (fun (_ : List PoseBone) => ()) (fun _ => ())
        c6Arm c6MeshL c6MeshR = .ok (arm2, mL, mR) ∧
      arm2 = reset_pose c6Arm ∧ ("eyeLookUpLeft", ()) ∈ mL.keys) := by
  have h := C6_build_avatarsdk_eyes (fun (_ : List PoseBone) => ()) (fun _ => ())
    c6Arm c6MeshL c6MeshR
  have hok := h.1.mpr ⟨rfl, rfl⟩
  obtain ⟨⟨arm2, mL, mR⟩, hres⟩ := hok
  refine ⟨⟨_, hres⟩, arm2, mL, mR, hres, (h.2 arm2 mL mR hres).1, ?_⟩
  have hm := (h.2 arm2 mL mR hres).2.1 ("Up", -20) (List.mem_cons_self _ _)
  simpa using hm

/-- Two words with different suffixes of equal length differ, whatever the
prefixes. -/
theorem append_suffix_ne_list (a b s t : List Char) (hlen : s.length = t.length)
    (hne : s ≠ t) : a ++ s ≠ b ++ t := by
  intro h
  have h2 := congrArg List.reverse h
  rw [List.reverse_append, List.reverse_append] at h2
  have h3 := List.append_inj h2 (by simp [hlen])
  have h4 := congrArg List.reverse h3.1
  simp at h4
  exact hne h4

/-- String version of `append_suffix_ne_list`. -/
theorem string_append_suffix_ne (a b s t : String)
    (hlen : s.data.length = t.data.length) (hne : s.data ≠ t.data) :
    a ++ s ≠ b ++ t := by
  intro h
  have hd := congrArg String.data h
  rw [String.data_append, String.data_append] at hd
  exact append_suffix_ne_list a.data b.data s.data t.data hlen hne hd

/-- Appending a fixed suffix to strings is injective. -/
theorem string_append_right_cancel {a b : String} (s : String)
    (h : a ++ s = b ++ s) : a = b := by
  have hd := congrArg String.data h
  rw [String.data_append, String.data_append] at hd
  exact String.ext (List.append_cancel_right hd)

/-- No `<name>.quaternion` key collides with `"Hips.position"`. -/
theorem quat_key_ne_hips_pos (n : String) :
    n ++ ".quaternion" ≠ "Hips.position" := by
  have h : ("Hips.position" : String) = "Hi" ++ "ps.position" := by decide
  rw [h]
  exact string_append_suffix_ne n "Hi" ".quaternion" "ps.position"
    (by decide) (by decide)

/-- Writing a fresh key into the dict appends it. -/
theorem dictInsert_of_not_mem (d : List (String × PoseVal)) (k : String)
    (v : PoseVal) (h : ∀ p ∈ d, p.1 ≠ k) :
    dictInsert d k v = d ++ [(k, v)] := by
  have hnone : d.find? (fun p => p.1 == k) = none := by
    rw [List.find?_eq_none]
    intro p hp
    simpa using h p hp
  simp [dictInsert, hnone]

/-- The quaternion loop of `copy_pose` appends, in bone order, one entry per
processed bone, provided the keys it writes are fresh: bone names are
pairwise distinct and no accumulated entry already uses one of them. -/
theorem copy_pose_fold {M : Type} (inverted : M → M) (matmul : M → M → M)
    (toQuaternion : M → Quat) (identity4 : M) (rootFix : Quat)
    (only_selected : Bool) :
    ∀ (rest : List (PBone M)) (out : List (String × PoseVal)),
      (∀ b ∈ rest, ∀ p ∈ out, p.1 ≠ b.name ++ ".quaternion") →
      (List.map PBone.name rest).Nodup →
      rest.foldl
        (fun out b =>
          if !(cpTakes only_selected b) then out
          else
            dictInsert out (b.name ++ ".quaternion")
              (boneQuatVal inverted matmul toQuaternion identity4 rootFix b))
        out =
      out ++ (rest.filter (cpTakes only_selected)).map
        (fun b => (b.name ++ ".quaternion",
          boneQuatVal inverted matmul toQuaternion identity4 rootFix b)) := by
  intro rest
  induction rest with
  | nil =>
    intro out _ _
    simp
  | cons b bs ih =>
    intro out hfresh hnodup
    rw [List.map_cons, List.nodup_cons] at hnodup
    by_cases htake : cpTakes only_selected b = true
    · have hbranch :
          (if !(cpTakes only_selected b) then out
           else dictInsert out (b.name ++ ".quaternion")
             (boneQuatVal inverted matmul toQuaternion identity4 rootFix b)) =
          out ++ [(b.name ++ ".quaternion",
            boneQuatVal inverted matmul toQuaternion identity4 rootFix b)] := by
        rw [htake]
        exact dictInsert_of_not_mem _ _ _
          (fun p hp hk => hfresh b (List.mem_cons_self _ _) p hp hk)
      have hcond : ∀ b' ∈ bs, ∀ p ∈ out ++ [(b.name ++ ".quaternion",
          boneQuatVal inverted matmul toQuaternion identity4 rootFix b)],
          p.1 ≠ b'.name ++ ".quaternion" := by
        intro b' hb' p hp
        rcases List.mem_append.mp hp with hin | hin
        · exact hfresh b' (List.mem_cons_of_mem _ hb') p hin
        · have hp1 : p.1 = b.name ++ ".quaternion" := by
            rw [List.mem_singleton.mp hin]
          rw [hp1]
          intro hkeq
          have hname : b.name = b'.name := string_append_right_cancel _ hkeq
          apply hnodup.1
          rw [hname]
          exact List.mem_map.mpr ⟨b', hb', rfl⟩
      have hrec := ih (out ++ [(b.name ++ ".quaternion",
          boneQuatVal inverted matmul toQuaternion identity4 rootFix b)])
        hcond hnodup.2
      rw [List.foldl_cons, hbranch, hrec]
      simp [List.filter_cons, htake]
    · have hfalse : cpTakes only_selected b = false := by
        cases hcp : cpTakes only_selected b
        · rfl
        · exact absurd hcp htake
      have hbranch :
          (if !(cpTakes only_selected b) then out
           else dictInsert out (b.name ++ ".quaternion")
             (boneQuatVal inverted matmul toQuaternion identity4 rootFix b)) =
          out := by
        rw [hfalse]
        rfl
      have hrec := ih out
        (fun b' hb' => hfresh b' (List.mem_cons_of_mem _ hb')) hnodup.2
      rw [List.foldl_cons, hbranch, hrec]
      simp [List.filter_cons, hfalse]

/-- **C7.**  `copy_pose` (with `only_selected = true`, the default) outputs
exactly: a `"Hips.position"` entry, present iff a bone named `Hips` is among
the given bones, holding the parent-relative translation with output `x` from
local x, `y` from local z, `z` from local y, each rounded to 4 decimal
places; followed by one `"<name>.quaternion"` entry for each selected bone
whose name contains none of the skip substrings, holding the parent-relative
rotation quaternion rounded to 4 decimal places, the `Hips` quaternion alone
pre-multiplied by `ROOT_FIX` (the -90° X rotation); and no other keys. -/
theorem C7_copy_pose {M : Type} (inverted : M → M) (matmul : M → M → M)
    (toTranslation : M → ℚ × ℚ × ℚ) (toQuaternion : M → Quat)
    (identity4 : M) (rootFix : Quat) (bones : List (PBone M))
    (hnodup : (List.map PBone.name bones).Nodup) :
    copy_pose inverted matmul toTranslation toQuaternion identity4 rootFix
        true bones =
      hipsPosEntry inverted matmul toTranslation identity4 bones ++
        (bones.filter (cpTakes true)).map
          (fun b => (b.name ++ ".quaternion",
            boneQuatVal inverted matmul toQuaternion identity4 rootFix b)) ∧
    ((∃ v, ("Hips.position", v) ∈
        copy_pose inverted matmul toTranslation toQuaternion identity4 rootFix
          true bones) ↔
      ∃ b ∈ bones, b.name = "Hips") := by
  have hfresh : ∀ b ∈ bones, ∀ p ∈
      hipsPosEntry inverted matmul toTranslation identity4 bones,
      p.1 ≠ b.name ++ ".quaternion" := by
    intro b _ p hp
    cases hfind : bones.find? (fun b => b.name == "Hips") with
    | none =>
      simp [hipsPosEntry, hfind] at hp
    | some hips =>
      simp only [hipsPosEntry, hfind, List.mem_singleton] at hp
      rw [hp]
      intro hk
      exact quat_key_ne_hips_pos b.name hk.symm
  have heq : copy_pose inverted matmul toTranslation toQuaternion identity4
      rootFix true bones =
      hipsPosEntry inverted matmul toTranslation identity4 bones ++
        (bones.filter (cpTakes true)).map
          (fun b => (b.name ++ ".quaternion",
            boneQuatVal inverted matmul toQuaternion identity4 rootFix b)) :=
    copy_pose_fold inverted matmul toQuaternion identity4 rootFix true bones
      (hipsPosEntry inverted matmul toTranslation identity4 bones)
      hfresh hnodup
  refine ⟨heq, ?_, ?_⟩
  · rintro ⟨v, hv⟩
    rw [heq] at hv
    rcases List.mem_append.mp hv with hin | hin
    · cases hfind : bones.find? (fun b => b.name == "Hips") with
      | none =>
        simp [hipsPosEntry, hfind] at hin
      | some hips =>
        refine ⟨hips, List.mem_of_find?_eq_some hfind, ?_⟩
        have hp := List.find?_some hfind
        simpa using hp
    · exfalso
      rcases List.mem_map.mp hin with ⟨b, _, hb⟩
      exact quat_key_ne_hips_pos b.name (congrArg Prod.fst hb)
  · rintro ⟨b, hb, hname⟩
    have hsome : (bones.find? (fun b => b.name == "Hips")).isSome = true :=
      List.find?_isSome.mpr ⟨b, hb, by simp [hname]⟩
    obtain ⟨hips, hfind⟩ := Option.isSome_iff_exists.mp hsome
    refine ⟨PoseVal.pos
      (roundTo 4 (toTranslation (localMatrix inverted matmul identity4 hips)).1)
      (roundTo 4 (toTranslation (localMatrix inverted matmul identity4 hips)).2.2)
      (roundTo 4 (toTranslation (localMatrix inverted matmul identity4 hips)).2.1),
      ?_⟩
    rw [heq]
    apply List.mem_append.mpr
    left
    simp [hipsPosEntry, hfind]

/-- Witness instantiating `C7_copy_pose` on concrete data, discharging the
distinct-bone-name hypothesis. -/
theorem C7_copy_pose_witness :
    (List.map PBone.name c7Bones).Nodup ∧
    ((∃ v, ("Hips.position", v) ∈
        copy_pose (fun u : Unit => u) (fun _ u => u) (fun _ => (1, 2, 3))
          (fun _ => ⟨0, 0, 0, 1⟩) () ⟨0, 0, 0, 1⟩ true c7Bones) ↔
      ∃ b ∈ c7Bones, b.name = "Hips") := by
  refine ⟨by decide, ?_⟩
  exact (C7_copy_pose (fun u : Unit => u) (fun _ u => u) (fun _ => (1, 2, 3))
    (fun _ => ⟨0, 0, 0, 1⟩) () ⟨0, 0, 0, 1⟩ c7Bones (by decide)).2

/-- Unfolding `specAxisFix` at a matching head entry. -/
theorem specAxisFix_cons_pos {β : Type} (alignRoll : β → ℚ × ℚ × ℚ → ℚ)
    (e : String × (ℚ × ℚ × ℚ)) (ts : List (String × (ℚ × ℚ × ℚ)))
    (b : EditBone β) (h : b.name = e.1) :
    specAxisFix alignRoll (e :: ts) b = { b with roll := alignRoll b.rest e.2 } := by
  simp only [specAxisFix]
  rw [List.find?_cons_of_pos ts (by simp [h])]

/-- Unfolding `specAxisFix` at a non-matching head entry. -/
theorem specAxisFix_cons_neg {β : Type} (alignRoll : β → ℚ × ℚ × ℚ → ℚ)
    (e : String × (ℚ × ℚ × ℚ)) (ts : List (String × (ℚ × ℚ × ℚ)))
    (b : EditBone β) (h : b.name ≠ e.1) :
    specAxisFix alignRoll (e :: ts) b = specAxisFix alignRoll ts b := by
  simp only [specAxisFix]
  rw [List.find?_cons_of_neg ts (by simp [Ne.symm h])]

/-- A bone whose name is not a table key is untouched by `specAxisFix`. -/
theorem specAxisFix_of_not_mem {β : Type} (alignRoll : β → ℚ × ℚ × ℚ → ℚ)
    (table : List (String × (ℚ × ℚ × ℚ))) (b : EditBone β)
    (h : b.name ∉ List.map Prod.fst table) :
    specAxisFix alignRoll table b = b := by
  have hnone : table.find? (fun e => e.1 == b.name) = none := by
    rw [List.find?_eq_none]
    intro e he
    simp only [beq_iff_eq]
    intro heq
    exact h (heq ▸ List.mem_map.mpr ⟨e, he, rfl⟩)
  simp [specAxisFix, hnone]

/-- With pairwise-distinct table keys, the lookup of a member entry finds
exactly that entry. -/
theorem find?_eq_some_of_nodup_keys :
    ∀ (table : List (String × (ℚ × ℚ × ℚ))), (List.map Prod.fst table).Nodup →
      ∀ e ∈ table, ∀ nm : String, e.1 = nm →
      table.find? (fun x => x.1 == nm) = some e := by
  intro table
  induction table with
  | nil =>
    intro _ e he
    exact absurd he (List.not_mem_nil e)
  | cons t ts ih =>
    intro hnodup e he nm hnm
    rw [List.map_cons, List.nodup_cons] at hnodup
    rcases List.mem_cons.mp he with rfl | hets
    · rw [List.find?_cons_of_pos ts (by simp [hnm])]
    · have htne : t.1 ≠ nm := by
        intro hteq
        apply hnodup.1
        rw [hteq, ← hnm]
        exact List.mem_map.mpr ⟨e, hets, rfl⟩
      rw [List.find?_cons_of_neg ts (by simp [htne])]
      exact ih hnodup.2 e hets nm hnm

/-- With distinct bone names, updating the first name match updates every
name match. -/
theorem alignFirst_eq_map {β : Type} (alignRoll : β → ℚ × ℚ × ℚ → ℚ)
    (nm : String) (z : ℚ × ℚ × ℚ) :
    ∀ bones : List (EditBone β), (List.map EditBone.name bones).Nodup →
      alignFirst alignRoll nm z bones =
        bones.map (fun b =>
          if b.name == nm then { b with roll := alignRoll b.rest z } else b) := by
  intro bones
  induction bones with
  | nil =>
    intro _
    rfl
  | cons b bs ih =>
    intro hnodup
    rw [List.map_cons, List.nodup_cons] at hnodup
    by_cases hb : b.name = nm
    · simp only [alignFirst, List.map_cons]
      rw [if_pos (by simp [hb]), if_pos (by simp [hb])]
      have hbs : ∀ x ∈ bs, (if x.name == nm then
          { x with roll := alignRoll x.rest z } else x) = x := by
        intro x hx
        rw [if_neg]
        simp only [beq_iff_eq]
        intro hxeq
        apply hnodup.1
        have hxb : x.name = b.name := by rw [hxeq, hb]
        rw [← hxb]
        exact List.mem_map.mpr ⟨x, hx, rfl⟩
      rw [List.map_congr_left hbs, List.map_id']
    · simp only [alignFirst, List.map_cons]
      rw [if_neg (by simp [hb]), if_neg (by simp [hb]), ih hnodup.2]

/-- The table fold of `fix_bone_axes` acts as `specAxisFix` on every bone,
when table keys and bone names are each pairwise distinct. -/
theorem axisFold_eq_map {β : Type} (alignRoll : β → ℚ × ℚ × ℚ → ℚ) :
    ∀ (table : List (String × (ℚ × ℚ × ℚ))) (bones : List (EditBone β)),
      (List.map Prod.fst table).Nodup →
      (List.map EditBone.name bones).Nodup →
      table.foldl (fun bs e => alignFirst alignRoll e.1 e.2 bs) bones =
        bones.map (specAxisFix alignRoll table) := by
  intro table
  induction table with
  | nil =>
    intro bones _ _
    rw [List.foldl_nil]
    have h : ∀ b ∈ bones, specAxisFix alignRoll [] b = b := fun b _ => rfl
    rw [List.map_congr_left h, List.map_id']
  | cons e ts ih =>
    intro bones htab hbones
    rw [List.map_cons, List.nodup_cons] at htab
    rw [List.foldl_cons, alignFirst_eq_map alignRoll e.1 e.2 bones hbones]
    have hnames : List.map EditBone.name (bones.map (fun b =>
        if b.name == e.1 then { b with roll := alignRoll b.rest e.2 } else b)) =
        List.map EditBone.name bones := by
      rw [List.map_map]
      apply List.map_congr_left
      intro b _
      by_cases hb : b.name = e.1
      · simp [hb]
      · simp [hb]
    have hrec := ih (bones.map (fun b =>
        if b.name == e.1 then { b with roll := alignRoll b.rest e.2 } else b))
      htab.2 (by rw [hnames]; exact hbones)
    rw [hrec, List.map_map]
    apply List.map_congr_left
    intro b _
    by_cases hb : b.name = e.1
    · rw [Function.comp_apply, if_pos (by simp [hb]),
        specAxisFix_cons_pos alignRoll e ts b hb]
      apply specAxisFix_of_not_mem
      show ({ b with roll := alignRoll b.rest e.2 } : EditBone β).name ∉
        List.map Prod.fst ts
      rw [show ({ b with roll := alignRoll b.rest e.2 } : EditBone β).name =
        b.name from rfl, hb]
      exact htab.1
    · rw [Function.comp_apply, if_neg (by simp [hb]),
        specAxisFix_cons_neg alignRoll e ts b hb]

/-- **C8.**  On a selected armature (with a reference table chosen among the
two shipped tables, and the Blender invariants that table keys and edit-bone
names are distinct), `fix_bone_axes` leaves the selection, the object type,
and the mode unchanged, and maps every edit bone through `specAxisFix`: a
bone named by a table entry gets its roll aligned to that entry's reference
z direction (name and rest data intact), and a bone whose name is not a
table key is completely untouched. -/
theorem C8_fix_bone_axes {β : Type} (alignRoll : β → ℚ × ℚ × ℚ → ℚ)
    (table : List (String × (ℚ × ℚ × ℚ)))
    (htab : table = boneAxesDataA ∨ table = boneAxesDataT)
    (arm : ArmObj β) (rest : List (ArmObj β))
    (harm : arm.otype = "ARMATURE")
    (hnodup : (List.map EditBone.name arm.bones).Nodup) :
    fix_bone_axes alignRoll table (arm :: rest) =
      { arm with bones := List.map (specAxisFix alignRoll table) arm.bones } ::
        rest ∧
    (∀ b ∈ arm.bones, b.name ∉ List.map Prod.fst table →
      specAxisFix alignRoll table b = b) ∧
    (∀ b ∈ arm.bones, ∀ e ∈ table, b.name = e.1 →
      specAxisFix alignRoll table b = { b with roll := alignRoll b.rest e.2 }) := by
  have htabnodup : (List.map Prod.fst table).Nodup := by
    rcases htab with h | h <;> rw [h] <;> decide
  refine ⟨?_, ?_, ?_⟩
  · have hfold := axisFold_eq_map alignRoll table arm.bones htabnodup hnodup
    simp only [fix_bone_axes]
    rw [if_neg (by simp [harm])]
    rw [hfold]
  · intro b _ h
    exact specAxisFix_of_not_mem alignRoll table b h
  · intro b _ e he hbe
    have hfind := find?_eq_some_of_nodup_keys table htabnodup e he b.name hbe.symm
    simp [specAxisFix, hfind]

/-- Witness instantiating `C8_fix_bone_axes` on concrete data, discharging
the table choice, the armature-type test and the distinct-name invariants. -/
theorem C8_fix_bone_axes_witness :
    (boneAxesDataA = boneAxesDataA ∨ boneAxesDataA = boneAxesDataT) ∧
    c8Arm.otype = "ARMATURE" ∧
    (List.map EditBone.name c8Arm.bones).Nodup ∧
    fix_bone_axes (fun _ _ => (0 : ℚ)) boneAxesDataA [c8Arm] = c8Aligned :: [] := by
  refine ⟨Or.inl rfl, rfl, by decide, ?_⟩
  exact (C8_fix_bone_axes (fun _ _ => (0 : ℚ)) boneAxesDataA (Or.inl rfl)
    c8Arm [] rfl (by decide)).1
